import Mathlib

/-!
Verification development for the arabic-apis textbook pipeline.

The Python sources under `src/` are shallowly embedded as Lean functions:
Python strings become `List Char` (one entry per Unicode code point, which
matches Python's code-point based string semantics), Python ints become
`Int`, fallible code returns `Option`.  Each embedded definition carries a
doc comment naming the Python function it was translated from.
-/

namespace Py

/-- The character for a decimal digit value. -/
def digitChar (n : Nat) : Char := Char.ofNat (48 + n)

/-- Fuel-based decimal printing helper (structural recursion so that the
kernel can evaluate it; the fuel is always sufficient when called through
`natDigits`). -/
def natDigitsGo : Nat → Nat → List Char
  | 0, _ => []
  | fuel + 1, n =>
    if n < 10 then [digitChar n]
    else natDigitsGo fuel (n / 10) ++ [digitChar (n % 10)]

/-- Python `str(n)` for a natural number: decimal digits, no sign.
Mirrors ordinary decimal printing (`12` ↦ `"12"`). -/
def natDigits (n : Nat) : List Char := natDigitsGo (n + 1) n

/-- Python `str(i)` for an int: optional leading minus sign. -/
def intStr (i : Int) : List Char :=
  if i < 0 then '-' :: natDigits i.natAbs else natDigits i.natAbs

/-- Characters Python `str.strip()` removes (the ASCII whitespace subset,
which is all the pipeline's data contains). -/
def isPySpace (c : Char) : Bool :=
  c = ' ' || c = '\t' || c = '\n' || c = '\r' || c = '\x0b' || c = '\x0c'

/-- Python `str.strip()`: drop leading and trailing whitespace. -/
def strip (s : List Char) : List Char :=
  (((s.dropWhile isPySpace).reverse).dropWhile isPySpace).reverse

/-- Python `str.lower()` restricted to ASCII letters (the heuristics below
are only ever applied to ASCII English text together with Arabic letters,
which have no case). -/
def lowerChar (c : Char) : Char :=
  if c.val ≥ 65 && c.val ≤ 90 then Char.ofNat (c.val.toNat + 32) else c

/-- Python `str.lower()` on a whole string. -/
def lower (s : List Char) : List Char := s.map lowerChar

/-- Does `pat` occur starting at position `i` of `s`? -/
def substrAt (s pat : List Char) (i : Nat) : Bool :=
  pat.isPrefixOf (s.drop i)

/-- Python `str.find(pat)`: index of the first occurrence, `-1` if absent. -/
def pyFind (s pat : List Char) : Int :=
  match (List.range (s.length + 1)).find? (fun i => substrAt s pat i) with
  | some i => (i : Int)
  | none => -1

/-- Python `str.split(sep)` for a one-character separator: keeps empty
pieces, always returns at least one piece. -/
def splitOnChar (sep : Char) (s : List Char) : List (List Char) :=
  match s with
  | [] => [[]]
  | c :: rest =>
    let r := splitOnChar sep rest
    if c = sep then [] :: r
    else match r with
      | [] => [[c]]
      | p :: ps => (c :: p) :: ps

/-- Python `str.split()` with no argument: split on whitespace runs,
dropping empty tokens. -/
def splitWs (s : List Char) : List (List Char) :=
  match s with
  | [] => []
  | c :: rest =>
    if isPySpace c then splitWs rest
    else
      match splitWs rest with
      | [] => [[c]]
      | p :: ps =>
        match rest with
        | [] => [[c]]
        | d :: _ => if isPySpace d then [c] :: p :: ps else (c :: p) :: ps

/-- Python `int(s)`: strip whitespace, optional sign, then one or more
decimal digits; `none` models the `ValueError` raised otherwise. -/
def pyInt (s : List Char) : Option Int :=
  let t := strip s
  let (sign, ds) : Int × List Char :=
    match t with
    | '-' :: rest => (-1, rest)
    | '+' :: rest => (1, rest)
    | _ => (1, t)
  if ds = [] then none
  else if ds.all (fun c => c.isDigit) then
    some (sign * (ds.foldl (fun acc c => acc * 10 + ((c.val.toNat : Int) - 48)) 0))
  else none

end Py

/-- The `QURAN_CHAPTERS` table (verse count per chapter), duplicated
verbatim in `src/textbook_enrich.py` and `src/process_textbook_llm_output.py`
with identical content; embedded once here. -/
def QURAN_CHAPTERS : List (Int × Int) :=
  [(1, 7), (2, 286), (3, 200), (4, 176), (5, 120), (6, 165), (7, 206),
   (8, 75), (9, 129), (10, 109), (11, 123), (12, 111), (13, 43), (14, 52),
   (15, 99), (16, 128), (17, 111), (18, 110), (19, 98), (20, 135),
   (21, 112), (22, 78), (23, 118), (24, 64), (25, 77), (26, 227), (27, 93),
   (28, 88), (29, 69), (30, 60), (31, 34), (32, 30), (33, 73), (34, 54),
   (35, 45), (36, 83), (37, 182), (38, 88), (39, 75), (40, 85), (41, 54),
   (42, 53), (43, 89), (44, 59), (45, 37), (46, 35), (47, 38), (48, 29),
   (49, 18), (50, 45), (51, 60), (52, 49), (53, 62), (54, 55), (55, 78),
   (56, 96), (57, 29), (58, 22), (59, 24), (60, 13), (61, 14), (62, 11),
   (63, 11), (64, 18), (65, 12), (66, 12), (67, 30), (68, 52), (69, 52),
   (70, 44), (71, 28), (72, 28), (73, 20), (74, 56), (75, 40), (76, 31),
   (77, 50), (78, 40), (79, 46), (80, 42), (81, 29), (82, 19), (83, 36),
   (84, 25), (85, 22), (86, 17), (87, 19), (88, 26), (89, 30), (90, 20),
   (91, 15), (92, 21), (93, 11), (94, 8), (95, 8), (96, 19), (97, 5),
   (98, 8), (99, 8), (100, 11), (101, 11), (102, 8), (103, 3), (104, 9),
   (105, 5), (106, 4), (107, 7), (108, 3), (109, 6), (110, 3), (111, 5),
   (112, 4), (113, 5), (114, 6)]

/-- `QURAN_CHAPTERS.get(ch) or 0` / `QURAN_CHAPTERS[ch]`: chapter length
lookup, 0 when the chapter is not in the table. -/
def quranChapterLen (ch : Int) : Int :=
  match QURAN_CHAPTERS.find? (fun p => p.1 = ch) with
  | some p => p.2
  | none => 0

/-- `validate_quran_reference` from `src/process_textbook_llm_output.py`
(lines 224-233): returns `(is_valid, warning_message)`. -/
def validate_quran_reference (surah ayah : Int) : Bool × List Char :=
  if surah < 1 || surah > 114 then
    (false, ("Chapter ".toList ++ Py.intStr surah
      ++ " is invalid (valid range: 1-114)".toList))
  else if ayah < 1 || ayah > quranChapterLen surah then
    (false, ("Verse ".toList ++ Py.intStr ayah
      ++ " is invalid for chapter ".toList ++ Py.intStr surah
      ++ " (valid range: 1-".toList ++ Py.intStr (quranChapterLen surah)
      ++ ")".toList))
  else (true, [])

example : validate_quran_reference 2 286 = (true, []) := by decide
example : validate_quran_reference 2 287 =
    (false, "Verse 287 is invalid for chapter 2 (valid range: 1-286)".toList) := by decide
example : validate_quran_reference 115 1 =
    (false, "Chapter 115 is invalid (valid range: 1-114)".toList) := by decide

/-! ## C4: English sort-key / part-of-speech heuristic
(`src/textbook_data.py`, `guess_sort_letter_part_of_speech_english` and
`remove_leading_parens`). -/

/-- Python `re` word character `\w`, restricted to the ASCII range that the
English-meaning strings this heuristic processes actually contain. -/
def isWordChar (c : Char) : Bool :=
  c.isAlpha || c.isDigit || c = '_'

/-- `remove_leading_parens` from `src/textbook_data.py` (lines 208-219).
For a leading `(` the text through the first `)` is dropped (all of it if
no `)` exists, since Python `find` returns `-1` and `s[0:]` is `s`); for a
leading `[` only the bracket character itself is dropped. -/
def remove_leading_parens (s : List Char) : List Char :=
  match s with
  | '(' :: _ =>
    let i := Py.pyFind s [')']
    Py.strip (s.drop (i + 1).toNat)
  | '[' :: rest => Py.strip rest
  | _ => s

/-- `re.search(r'^to\s+\w', test_str)`: if the string starts with `to`, one
or more whitespace characters, then a word character, return
`(match.end() - 1, the word character)`; the returned index is the position
of that word character (which the source reads back via
`test_str[sort_start_index]`). -/
def matchToWord (s : List Char) : Option (Nat × Char) :=
  match s with
  | 't' :: 'o' :: rest =>
    let k := (rest.takeWhile Py.isPySpace).length
    if k = 0 then none
    else
      match rest.drop k with
      | c :: _ => if isWordChar c then some (2 + k, c) else none
      | [] => none
  | _ => none

/-- `guess_sort_letter_part_of_speech_english` from `src/textbook_data.py`
(lines 126-180).  Returns `(sort_letter, sort_start_index, part_of_speech)`;
`none` models the uncaught `IndexError` raised by `test_str[sort_start_index]`
when the qualifier-stripped remainder is empty. -/
def guess_sort_letter_part_of_speech_english (engStr : List Char)
    (pos : Option (List Char)) : Option (List Char × Int × List Char) :=
  if engStr = [] then some ([], -1, "empty_string".toList)
  else
    let t := remove_leading_parens (Py.lower (Py.strip engStr))
    match matchToWord t with
    | some (i, c) =>
      -- pos = "noun" with a verb-looking string only logs a warning
      some ([c], (i : Int), "verb".toList)
    | none =>
      match t with
      | c :: _ =>
        let result :=
          if pos = some "verb".toList then "verb".toList else "noun".toList
        some ([c], 0, result)
      | [] => none

example : guess_sort_letter_part_of_speech_english "to write, record".toList none
    = some ("w".toList, 3, "verb".toList) := by decide
example : guess_sort_letter_part_of_speech_english "a book".toList none
    = some ("a".toList, 0, "noun".toList) := by decide
example : guess_sort_letter_part_of_speech_english "[pl.] books".toList none
    = some ("p".toList, 0, "noun".toList) := by decide
example : guess_sort_letter_part_of_speech_english "(+ bi-) to see, observe".toList none
    = some ("s".toList, 3, "verb".toList) := by decide

/-- Helper: a successful `^to\s+\w` match really reports the character at
the returned index. -/
theorem matchToWord_head (t : List Char) (i : Nat) (c : Char)
    (h : matchToWord t = some (i, c)) : (t.drop i).head? = some c := by
  unfold matchToWord at h
  split at h
  · rename_i rest
    dsimp only at h
    split at h
    · exact absurd h (by simp)
    · split at h
      · rename_i l heq
        split at h
        · rename_i hw
          obtain ⟨hi, hc⟩ := Prod.mk.injEq .. ▸ Option.some.injEq .. ▸ h
          subst hi hc
          have h3 : ('t' :: 'o' :: rest).drop (2 + (rest.takeWhile Py.isPySpace).length)
              = rest.drop ((rest.takeWhile Py.isPySpace).length) := by
            rw [Nat.add_comm]
            simp [List.drop_succ_cons]
          rw [h3, heq]
          rfl
        · exact absurd h (by simp)
      · exact absurd h (by simp)
  · exact absurd h (by simp)

/-- C3: the Quran reference validator accepts (2,286); rejects (2,287)
citing range 1-286; rejects (115,1) citing 1-114; and in general rejects
any surah outside [1,114] with the chapter message, and any in-range surah
with an out-of-range ayah with the verse message citing that chapter's
valid range. -/
theorem C3_validate_quran_reference :
    validate_quran_reference 2 286 = (true, []) ∧
    validate_quran_reference 2 287 =
      (false, "Verse 287 is invalid for chapter 2 (valid range: 1-286)".toList) ∧
    validate_quran_reference 115 1 =
      (false, "Chapter 115 is invalid (valid range: 1-114)".toList) ∧
    (∀ surah ayah : Int, (surah < 1 ∨ surah > 114) →
      validate_quran_reference surah ayah =
        (false, "Chapter ".toList ++ Py.intStr surah
          ++ " is invalid (valid range: 1-114)".toList)) ∧
    (∀ surah ayah : Int, 1 ≤ surah → surah ≤ 114 →
      (ayah < 1 ∨ ayah > quranChapterLen surah) →
      validate_quran_reference surah ayah =
        (false, "Verse ".toList ++ Py.intStr ayah
          ++ " is invalid for chapter ".toList ++ Py.intStr surah
          ++ " (valid range: 1-".toList ++ Py.intStr (quranChapterLen surah)
          ++ ")".toList)) := by
  refine ⟨by decide, by decide, by decide, ?_, ?_⟩
  · intro surah ayah h
    have hb : (decide (surah < 1) || decide (surah > 114)) = true := by
      rcases h with h | h <;> simp [h]
    simp [validate_quran_reference, hb]
  · intro surah ayah h1 h2 h3
    have hb : (decide (surah < 1) || decide (surah > 114)) = false := by
      simp
      omega
    have hb2 : (decide (ayah < 1) || decide (ayah > quranChapterLen surah)) = true := by
      rcases h3 with h | h <;> simp [h]
    simp [validate_quran_reference, hb, hb2]

/-- Witness for C3 at concrete out-of-range inputs. -/
theorem C3_validate_quran_reference_witness :
    validate_quran_reference 0 5 =
      (false, "Chapter 0 is invalid (valid range: 1-114)".toList) ∧
    validate_quran_reference 3 201 =
      (false, "Verse 201 is invalid for chapter 3 (valid range: 1-200)".toList) :=
  ⟨C3_validate_quran_reference.2.2.2.1 0 5 (Or.inl (by decide)),
   by
    have h := C3_validate_quran_reference.2.2.2.2 3 201 (by decide) (by decide)
      (Or.inr (by decide))
    simpa using h⟩

/-- The qualifier-stripping step as the specification words it ("strip a
leading parenthetical or bracketed qualifier"): for a leading `[` the text
through the first `]` is dropped, symmetrically to the `(`/`)` case.  This
follows the spec, not the source, and is only used to compare against the
source behaviour. -/
def removeLeadingQualifierSpecC4 (s : List Char) : List Char :=
  match s with
  | '(' :: _ => Py.strip (s.drop (Py.pyFind s [')'] + 1).toNat)
  | '[' :: _ => Py.strip (s.drop (Py.pyFind s [']'] + 1).toNat)
  | _ => s

/-- The whole sort-key heuristic as the specification words it, built on
the spec reading of qualifier stripping.  Only used for comparison. -/
def guessSpecC4 (engStr : List Char) (pos : Option (List Char)) :
    Option (List Char × Int × List Char) :=
  if engStr = [] then some ([], -1, "empty_string".toList)
  else
    let t := removeLeadingQualifierSpecC4 (Py.lower (Py.strip engStr))
    match matchToWord t with
    | some (i, c) => some ([c], (i : Int), "verb".toList)
    | none =>
      match t with
      | c :: _ =>
        let result :=
          if pos = some "verb".toList then "verb".toList else "noun".toList
        some ([c], 0, result)
      | [] => none

/-- C4 counterexample: on `"[pl.] books"` (a bracket-qualified noun with no
part-of-speech hint) the source keeps `"pl.] books"` after stripping only
the `[` character, so its sort letter is `'p'`; the claim's reading
("strip a leading ... bracketed qualifier") predicts sort letter `'b'`
(the first character of the qualifier-stripped remainder `"books"`). -/
theorem C4_guess_sort_key_counterexample :
    guess_sort_letter_part_of_speech_english "[pl.] books".toList none
      = some ("p".toList, 0, "noun".toList) ∧
    guessSpecC4 "[pl.] books".toList none
      = some ("b".toList, 0, "noun".toList) ∧
    ("p".toList : List Char) ≠ "b".toList := by
  refine ⟨by decide, by decide, by decide⟩

/-- C4 amended: with no part-of-speech hint the heuristic lowercases and
strips the input, removes a leading `(...)` qualifier but only the opening
character of a leading `[` qualifier, then classifies strings matching
`^to\s+\w` as verbs with sort start index just past the `to` and its
whitespace (the index of the first word character, which is also the sort
letter), and everything else as a noun with sort start index 0 and sort
letter the first remaining character.  In particular
`"to write, record"` ↦ (verb, sort letter `w`, index 3 = index of `write`)
and `"a book"` ↦ (noun, sort letter `a`, index 0). -/
theorem C4_guess_sort_key_amended :
    guess_sort_letter_part_of_speech_english "to write, record".toList none
      = some ("w".toList, 3, "verb".toList) ∧
    guess_sort_letter_part_of_speech_english "a book".toList none
      = some ("a".toList, 0, "noun".toList) ∧
    (∀ s, remove_leading_parens ('[' :: s) = Py.strip s) ∧
    (∀ s : List Char, s ≠ [] →
      (∀ i c, matchToWord (remove_leading_parens (Py.lower (Py.strip s))) = some (i, c) →
        guess_sort_letter_part_of_speech_english s none
            = some ([c], (i : Int), "verb".toList) ∧
        ((remove_leading_parens (Py.lower (Py.strip s))).drop i).head? = some c) ∧
      (matchToWord (remove_leading_parens (Py.lower (Py.strip s))) = none →
        ∀ c r, remove_leading_parens (Py.lower (Py.strip s)) = c :: r →
          guess_sort_letter_part_of_speech_english s none
            = some ([c], 0, "noun".toList))) := by
  refine ⟨by decide, by decide, fun s => rfl, ?_⟩
  intro s hs
  constructor
  · intro i c h
    refine ⟨?_, matchToWord_head _ _ _ h⟩
    simp only [guess_sort_letter_part_of_speech_english, if_neg hs, h]
  · intro h c r ht
    rw [ht] at h
    simp [guess_sort_letter_part_of_speech_english, if_neg hs, ht, h]

/-- Witness for C4 amended, applying the general branch descriptions at
concrete inputs. -/
theorem C4_guess_sort_key_amended_witness :
    guess_sort_letter_part_of_speech_english "to run".toList none
      = some ("r".toList, 3, "verb".toList) ∧
    guess_sort_letter_part_of_speech_english "book".toList none
      = some ("b".toList, 0, "noun".toList) :=
  ⟨((C4_guess_sort_key_amended.2.2.2 "to run".toList (by decide)).1 3 'r'
      (by decide)).1,
   (C4_guess_sort_key_amended.2.2.2 "book".toList (by decide)).2 (by decide)
      'b' "ook".toList (by decide)⟩

/-! ## C5: Arabic glossary group ordering
(`src/arabic-textbook-to-tex-file.py`, `write_glossary_arabic_sorted`,
lines 253-336). -/

/-- The fields of a vocabulary entry that `write_glossary_arabic_sorted`
reads: `entry['arabic_sort_letter']`, `entry['part_of_speech']` and the
`entry['arabic_words']` sub-dict. -/
structure GlossEntry where
  arabic_sort_letter : List Char
  part_of_speech : List Char
  singular : List Char := []
  dual : List Char := []
  plural : List Char := []
  perfect : List Char := []
  imperfect : List Char := []
  verbal_noun : List Char := []

/-- The check `'؀' <= char <= 'ۿ'` from the fallback scan. -/
def isArabicBlockChar (c : Char) : Bool :=
  0x600 ≤ c.val && c.val ≤ 0x6FF

/-- The effective group letter of an entry in
`write_glossary_arabic_sorted` (lines 268-300): use
`arabic_sort_letter` unless it is empty/`(`/`)`/space, in which case fall
back to the first Arabic-block character of the relevant Arabic word
(imperfect-else-perfect for verbs, singular otherwise) after dropping a
leading parenthesised marker; `none` means the entry is skipped
(`continue`). -/
def effSortLetter (e : GlossEntry) : Option (List Char) :=
  let sl := e.arabic_sort_letter
  let bad : List Char → Bool := fun l =>
    l = [] || l = ['('] || l = [')'] || l = [' ']
  if bad sl then
    let word :=
      if e.part_of_speech = "verb".toList then
        if e.imperfect ≠ [] then e.imperfect else e.perfect
      else e.singular
    let clean :=
      match word with
      | '(' :: _ =>
        let cp := Py.pyFind word [')']
        if cp > 0 then Py.strip (word.drop (cp + 1).toNat) else word
      | _ => word
    let sl2 :=
      match clean.find? isArabicBlockChar with
      | some c => [c]
      | none => sl
    if bad sl2 then none else some sl2
  else some sl

/-- The insertion-ordered list of group keys built by the grouping loop of
`write_glossary_arabic_sorted` (Python dict keys in insertion order). -/
def groupKeysArabic (vocab : List GlossEntry) : List (List Char) :=
  vocab.foldl
    (fun acc e =>
      match effSortLetter e with
      | some k => if k ∈ acc then acc else acc ++ [k]
      | none => acc)
    []

/-- The fixed 31-letter `arabic_order` list (line 310). -/
def ARABIC_ORDER : List (List Char) :=
  ["ا".toList, "إ".toList, "آ".toList, "أ".toList, "ب".toList, "ت".toList,
   "ث".toList, "ج".toList, "ح".toList, "خ".toList, "د".toList, "ذ".toList,
   "ر".toList, "ز".toList, "س".toList, "ش".toList, "ص".toList, "ض".toList,
   "ط".toList, "ظ".toList, "ع".toList, "غ".toList, "ف".toList, "ق".toList,
   "ك".toList, "ل".toList, "م".toList, "ن".toList, "ه".toList, "و".toList,
   "ي".toList]

/-- Python string `<` (lexicographic by code point), as a Bool. -/
def lexLe : List Char → List Char → Bool
  | [], _ => true
  | _ :: _, [] => false
  | a :: as, b :: bs =>
    if a.val < b.val then true
    else if b.val < a.val then false
    else lexLe as bs

/-- Stable insertion used to model Python `sorted` on strings. -/
def insertSorted (x : List Char) : List (List Char) → List (List Char)
  | [] => [x]
  | y :: ys => if lexLe x y then x :: y :: ys else y :: insertSorted x ys

/-- Python `sorted(...)` on a list of strings (ascending, stable). -/
def pySortStrs (l : List (List Char)) : List (List Char) :=
  l.foldr insertSorted []

/-- The order in which `write_glossary_arabic_sorted` emits its letter
groups (lines 309-336): the canonical letters present, in `ARABIC_ORDER`
order, followed by any remaining group letters in Python `sorted` order;
the final filter mirrors the `if letter in grouped and len(...) > 0` guard
of the writing loop. -/
def glossaryGroupOrderArabic (vocab : List GlossEntry) : List (List Char) :=
  let keys := groupKeysArabic vocab
  let part1 := ARABIC_ORDER.filter (fun a => a ∈ keys)
  let allLetters :=
    (pySortStrs keys).foldl
      (fun acc k => if k ∈ acc then acc else acc ++ [k]) part1
  allLetters.filter (fun a => a ∈ keys)

/-- Membership is preserved by the stable insertion step. -/
theorem mem_insertSorted (a x : List Char) (l : List (List Char)) :
    a ∈ insertSorted x l ↔ a = x ∨ a ∈ l := by
  induction l with
  | nil => simp [insertSorted]
  | cons y ys ih =>
    by_cases hxy : lexLe x y = true
    · simp [insertSorted, hxy, List.mem_cons]
    · simp only [insertSorted, if_neg hxy, List.mem_cons, ih]
      tauto

/-- Membership is preserved by the Python-`sorted` model. -/
theorem mem_pySortStrs (a : List Char) (l : List (List Char)) :
    a ∈ pySortStrs l ↔ a ∈ l := by
  induction l with
  | nil => simp [pySortStrs]
  | cons y ys ih =>
    simp only [pySortStrs, List.foldr_cons] at *
    rw [mem_insertSorted, ih, List.mem_cons]

/-- The appending loop adds nothing when every element is already present. -/
theorem foldl_addKey_of_mem (l : List (List Char)) (acc : List (List Char))
    (h : ∀ k ∈ l, k ∈ acc) :
    l.foldl (fun acc k => if k ∈ acc then acc else acc ++ [k]) acc = acc := by
  induction l generalizing acc with
  | nil => rfl
  | cons y ys ih =>
    have hy : y ∈ acc := h y (by simp)
    simp only [List.foldl_cons, if_pos hy]
    exact ih acc (fun k hk => h k (by simp [hk]))

/-- `insertSorted` permutes its inputs. -/
theorem insertSorted_perm (x : List Char) (l : List (List Char)) :
    (insertSorted x l).Perm (x :: l) := by
  induction l with
  | nil => exact List.Perm.refl _
  | cons y ys ih =>
    rw [insertSorted]
    by_cases hxy : lexLe x y = true
    · rw [if_pos hxy]
    · rw [if_neg hxy]
      exact (ih.cons y).trans (List.Perm.swap x y ys)

/-- The Python-`sorted` model permutes its input. -/
theorem pySortStrs_perm (l : List (List Char)) : (pySortStrs l).Perm l := by
  induction l with
  | nil => exact List.Perm.refl _
  | cons y ys ih =>
    simp only [pySortStrs, List.foldr_cons] at *
    exact (insertSorted_perm y _).trans (ih.cons y)

/-- The grouping loop never duplicates a key (membership is checked before
appending), for any starting accumulator without duplicates. -/
theorem foldl_groupStep_nodup (vocab : List GlossEntry) :
    ∀ acc : List (List Char), acc.Nodup →
      (vocab.foldl
        (fun acc e =>
          match effSortLetter e with
          | some k => if k ∈ acc then acc else acc ++ [k]
          | none => acc) acc).Nodup := by
  induction vocab with
  | nil => intro acc h; exact h
  | cons e es ih =>
    intro acc h
    rw [List.foldl_cons]
    apply ih
    cases he : effSortLetter e with
    | none => simp only [he]; exact h
    | some k =>
      simp only [he]
      by_cases hk : k ∈ acc
      · rw [if_pos hk]; exact h
      · rw [if_neg hk]
        exact h.append (List.nodup_singleton k)
          (fun a ha hb => hk ((List.mem_singleton.mp hb) ▸ ha))

/-- The glossary group-key list is duplicate-free (Python dict keys). -/
theorem groupKeysArabic_nodup (vocab : List GlossEntry) :
    (groupKeysArabic vocab).Nodup := by
  rw [groupKeysArabic]
  exact foldl_groupStep_nodup vocab [] List.nodup_nil

/-- The second letter-collecting loop of `write_glossary_arabic_sorted`
(append each sorted key not already present): when the canonical keys are
already in the accumulator and the non-canonical ones are fresh, it
appends exactly the non-canonical keys in their given order. -/
theorem foldl_addKey_split (l : List (List Char)) : ∀ acc : List (List Char),
    l.Nodup →
    (∀ k, k ∈ l → k ∉ ARABIC_ORDER → k ∉ acc) →
    (∀ k, k ∈ l → k ∈ ARABIC_ORDER → k ∈ acc) →
    l.foldl (fun acc k => if k ∈ acc then acc else acc ++ [k]) acc
      = acc ++ l.filter (fun a => a ∉ ARABIC_ORDER) := by
  induction l with
  | nil =>
    intro acc _ _ _
    rw [List.foldl_nil, List.filter_nil, List.append_nil]
  | cons y ys ih =>
    intro acc hnd hdis hcan
    rw [List.foldl_cons, List.filter_cons]
    rw [List.nodup_cons] at hnd
    by_cases hy : y ∈ ARABIC_ORDER
    · rw [if_pos (hcan y (List.mem_cons_self y ys) hy)]
      rw [if_neg (by simpa using hy)]
      exact ih acc hnd.2 (fun k hk => hdis k (List.mem_cons_of_mem y hk))
        (fun k hk => hcan k (List.mem_cons_of_mem y hk))
    · rw [if_neg (hdis y (List.mem_cons_self y ys) hy)]
      rw [if_pos (by simpa using hy)]
      have hdis2 : ∀ k, k ∈ ys → k ∉ ARABIC_ORDER → k ∉ acc ++ [y] := by
        intro k hk hkA hmem
        rw [List.mem_append, List.mem_singleton] at hmem
        rcases hmem with hka | hky
        · exact hdis k (List.mem_cons_of_mem y hk) hkA hka
        · exact hnd.1 (hky ▸ hk)
      have hcan2 : ∀ k, k ∈ ys → k ∈ ARABIC_ORDER → k ∈ acc ++ [y] :=
        fun k hk hkA => List.mem_append_left _ (hcan k (List.mem_cons_of_mem y hk) hkA)
      rw [ih (acc ++ [y]) hnd.2 hdis2 hcan2, List.append_assoc, List.singleton_append]

/-- The general shape of the emitted group order: canonical letters
present, in `ARABIC_ORDER` order, then the non-canonical letters present,
in Python `sorted` order. -/
theorem glossaryGroupOrderArabic_split (vocab : List GlossEntry) :
    glossaryGroupOrderArabic vocab
      = ARABIC_ORDER.filter (fun a => a ∈ groupKeysArabic vocab)
        ++ (pySortStrs (groupKeysArabic vocab)).filter
            (fun a => a ∉ ARABIC_ORDER) := by
  have hknd : (groupKeysArabic vocab).Nodup := groupKeysArabic_nodup vocab
  have hsnd : (pySortStrs (groupKeysArabic vocab)).Nodup :=
    ((pySortStrs_perm (groupKeysArabic vocab)).nodup_iff).mpr hknd
  have hdis : ∀ k, k ∈ pySortStrs (groupKeysArabic vocab) → k ∉ ARABIC_ORDER →
      k ∉ ARABIC_ORDER.filter (fun a => a ∈ groupKeysArabic vocab) :=
    fun k _ hkA hmem => hkA (List.mem_of_mem_filter hmem)
  have hcan : ∀ k, k ∈ pySortStrs (groupKeysArabic vocab) → k ∈ ARABIC_ORDER →
      k ∈ ARABIC_ORDER.filter (fun a => a ∈ groupKeysArabic vocab) :=
    fun k hk hkA =>
      List.mem_filter.mpr ⟨hkA, by simpa using (mem_pySortStrs k _).mp hk⟩
  simp only [glossaryGroupOrderArabic]
  rw [foldl_addKey_split _ _ hsnd hdis hcan]
  rw [List.filter_append]
  have h1 : (ARABIC_ORDER.filter (fun a => a ∈ groupKeysArabic vocab)).filter
      (fun a => a ∈ groupKeysArabic vocab)
      = ARABIC_ORDER.filter (fun a => a ∈ groupKeysArabic vocab) := by
    rw [List.filter_eq_self]
    intro a ha
    exact (List.mem_filter.mp ha).2
  have h2 : ((pySortStrs (groupKeysArabic vocab)).filter
        (fun a => a ∉ ARABIC_ORDER)).filter (fun a => a ∈ groupKeysArabic vocab)
      = (pySortStrs (groupKeysArabic vocab)).filter (fun a => a ∉ ARABIC_ORDER) := by
    rw [List.filter_eq_self]
    intro a ha
    simpa using (mem_pySortStrs a _).mp (List.mem_of_mem_filter ha)
  rw [h1, h2]

/-- C5: in the Arabic-alphabetical glossary view the group keys are
emitted as the canonical letters present, in the fixed 31-letter
`ARABIC_ORDER` sequence, followed by any group letters not in that
sequence in Python `sorted` (code-point) order — for every vocabulary;
and in particular, whenever the group-key set is exactly {ا, ب, ث}, the
groups come out ا, ب, ث regardless of entry insertion order. -/
theorem C5_arabic_glossary_group_order :
    (∀ vocab : List GlossEntry,
      glossaryGroupOrderArabic vocab
        = ARABIC_ORDER.filter (fun a => a ∈ groupKeysArabic vocab)
          ++ (pySortStrs (groupKeysArabic vocab)).filter
              (fun a => a ∉ ARABIC_ORDER)) ∧
    (∀ vocab : List GlossEntry,
      (∀ k, k ∈ groupKeysArabic vocab ↔
        (k = "ا".toList ∨ k = "ب".toList ∨ k = "ث".toList)) →
      glossaryGroupOrderArabic vocab
        = ["ا".toList, "ب".toList, "ث".toList]) := by
  refine ⟨glossaryGroupOrderArabic_split, ?_⟩
  intro vocab h
  rw [glossaryGroupOrderArabic_split vocab]
  have h2 : ARABIC_ORDER.filter
      (fun a => decide (a = "ا".toList ∨ a = "ب".toList ∨ a = "ث".toList))
      = ["ا".toList, "ب".toList, "ث".toList] := by decide
  have hpart : ARABIC_ORDER.filter (fun a => a ∈ groupKeysArabic vocab)
      = ["ا".toList, "ب".toList, "ث".toList] :=
    (List.filter_congr (fun a _ => decide_eq_decide.mpr (h a))).trans h2
  have hrest : (pySortStrs (groupKeysArabic vocab)).filter
      (fun a => a ∉ ARABIC_ORDER) = [] := by
    rw [List.filter_eq_nil_iff]
    intro a ha
    rcases (h a).mp ((mem_pySortStrs a _).mp ha) with h1 | h1 | h1 <;>
      subst h1 <;> decide
  rw [hpart, hrest, List.append_nil]

/-- A concrete vocabulary whose entries carry sort letters in insertion
order ب, ا, ث. -/
def demoVocabC5 : List GlossEntry :=
  [{ arabic_sort_letter := "ب".toList, part_of_speech := "noun".toList },
   { arabic_sort_letter := "ا".toList, part_of_speech := "noun".toList },
   { arabic_sort_letter := "ث".toList, part_of_speech := "noun".toList }]

/-- Witness for C5: the demo vocabulary is inserted ب, ا, ث but the groups
come out ا, ب, ث. -/
theorem C5_arabic_glossary_group_order_witness :
    groupKeysArabic demoVocabC5 = ["ب".toList, "ا".toList, "ث".toList] ∧
    glossaryGroupOrderArabic demoVocabC5
      = ["ا".toList, "ب".toList, "ث".toList] := by
  refine ⟨by decide, ?_⟩
  refine C5_arabic_glossary_group_order.2 demoVocabC5 (fun k => ?_)
  have hg : groupKeysArabic demoVocabC5
      = ["ب".toList, "ا".toList, "ث".toList] := by decide
  rw [hg]
  simp only [List.mem_cons, List.not_mem_nil, or_false]
  tauto

/-! ## C2: sequential-ayah arithmetic and exercise context windows
(`src/textbook_enrich.py`, `get_sequential_ayah` lines 215-273 and
`construct_context_lines_index_list` lines 177-207). -/

/-- `get_sequential_ayah` from `src/textbook_enrich.py`: computes the
chapter/verse `vs_to_get` steps away from `(ch_current, vs_current)`.
Crossing into the previous/next chapter happens only when `other_ch` is
true; with `other_ch = False` the function returns `(0, 0)` for any step
that leaves the current chapter. -/
def get_sequential_ayah (chCurrent vsCurrent vsToGet : Int)
    (otherCh : Bool) : Int × Int :=
  let ayahsInCurrent := quranChapterLen chCurrent
  let vsCalc := vsCurrent + vsToGet
  if vsToGet < 0 then
    if vsCalc ≤ 0 then
      if otherCh then
        let chToGet := chCurrent - 1
        let prevLen := quranChapterLen chToGet
        let prevCalc := prevLen + vsCalc
        if prevCalc < 0 then (chToGet, 1) else (chToGet, prevCalc)
      else (0, 0)
    else (chCurrent, vsCalc)
  else
    if vsCalc > ayahsInCurrent then
      if otherCh then
        let chToGet := chCurrent + 1
        let nextLen := quranChapterLen chToGet
        let nextCalc := vsCalc - ayahsInCurrent
        if nextCalc > nextLen then (chToGet, nextLen) else (chToGet, nextCalc)
      else (0, 0)
    else (chCurrent, vsCalc)

/-- Python `range(lo, hi)` over ints. -/
def intRange (lo hi : Int) : List Int :=
  (List.range (hi - lo).toNat).map (fun k => lo + (k : Int))

/-- `construct_context_lines_index_list` from `src/textbook_enrich.py`:
for each offset in `range(-num_before, num_after + 1)` calls
`get_sequential_ayah(..., other_ch := False)` and keeps the result only
when both components are nonzero. -/
def construct_context_lines_index_list (currentCh currentVs : Int)
    (numBefore : Nat := 1) (numAfter : Nat := 1) : List (Int × Int) :=
  (intRange (-(numBefore : Int)) ((numAfter : Int) + 1)).filterMap
    (fun i =>
      let cc := get_sequential_ayah currentCh currentVs i false
      if cc.1 ≠ 0 ∧ cc.2 ≠ 0 then some cc else none)

example : construct_context_lines_index_list 2 286 1 1
    = [(2, 285), (2, 286)] := by decide
example : get_sequential_ayah 2 286 1 true = (3, 1) := by decide
example : get_sequential_ayah 2 286 1 false = (0, 0) := by decide
example : construct_context_lines_index_list 3 1 1 1
    = [(3, 1), (3, 2)] := by decide
example : construct_context_lines_index_list 3 2 1 1
    = [(3, 1), (3, 2), (3, 3)] := by decide

/-! ## Enrichment model (`src/textbook_enrich.py`, `enrich_with_quran_api`
lines 141-415).  The Quran.com API response and the iteration order of the
Python `set` of verse keys are parameters: `api` maps a (surah, ayah) key
to the verse payload, and `order` is the order in which the fetch loop
walks the key set (constrained in the theorems to enumerate exactly the
collected keys, with no duplicates, as a Python set does). -/

/-- One element of `verse_json["verse"]["translations"]`. -/
structure QTranslation where
  resource_id : Int := 0
  text : List Char := []

/-- The fields of `verse_json["verse"]` that `attach` reads. -/
structure VerseData where
  text_indopak : List Char := []
  text_uthmani : List Char := []
  text_imlaei : List Char := []
  translations : List QTranslation := []

/-- A Verse Source dict as appended by `attach`. -/
structure VerseSource where
  source_name : List Char := []
  source_url : List Char := []
  text_type : List Char := []
  language : List Char := []
  text : List Char := []
  translation_resource_id : Option Int := none
  translation_resource_name : List Char := []
deriving DecidableEq

/-- The `translations_english` resource-name table from
`src/textbook_enrich.py` lines 130-139 (keys are strings). -/
def translations_english : List (List Char × List Char) :=
  [("85".toList, "M.A.S. Abdel Haleem".toList),
   ("84".toList, "T. Usmani".toList),
   ("95".toList, "A. Maududi (Tafhim commentary)".toList),
   ("22".toList, "A. Yusuf Ali".toList),
   ("203".toList, "Al-Hilali & Khan".toList),
   ("19".toList, "M. Pickthall".toList),
   ("20".toList, "Saheeh Intl.".toList),
   ("57".toList, "Transliteration".toList)]

/-- `translations_english.get(str(resource_id)) or ""`. -/
def translationName (rid : Int) : List Char :=
  match translations_english.find? (fun p => p.1 = Py.intStr rid) with
  | some p => p.2
  | none => []

/-- The f-string `f"https://quran.com/{ch}?startingVerse={vs}"`. -/
def quranUrl (ch vs : Int) : List Char :=
  "https://quran.com/".toList ++ Py.intStr ch
    ++ "?startingVerse=".toList ++ Py.intStr vs

/-- The Verse Source dicts `attach` appends for one cached verse.  The URL
is built from the enclosing-scope variables `ch`/`vs` of the fetch loop
(passed here as `stale`), not from the item's own reference — exactly as
in the source (lines 304, 317, 329, 346). -/
def sourcesForVerse (stale : Int × Int) (vd : VerseData) : List VerseSource :=
  (if vd.text_indopak ≠ [] then
    [{ source_name := "quran.com".toList, source_url := quranUrl stale.1 stale.2,
       text_type := "indopak".toList, language := "arabic".toList,
       text := vd.text_indopak }]
  else [])
  ++ (if vd.text_uthmani ≠ [] then
    [{ source_name := "quran.com".toList, source_url := quranUrl stale.1 stale.2,
       text_type := "uthmani".toList, language := "arabic".toList,
       text := vd.text_uthmani }]
  else [])
  ++ (if vd.text_imlaei ≠ [] then
    [{ source_name := "quran.com".toList, source_url := quranUrl stale.1 stale.2,
       text_type := "imlaei".toList, language := "arabic".toList,
       text := vd.text_imlaei }]
  else [])
  ++ vd.translations.map (fun t =>
    { source_name := "quran.com".toList, source_url := quranUrl stale.1 stale.2,
      text_type := "translation".toList,
      translation_resource_id := if t.resource_id = 0 then none else some t.resource_id,
      translation_resource_name := translationName t.resource_id,
      language := "english".toList, text := t.text })

/-- An item `attach` operates on: a vocabulary entry, an exercise entry or
a context-line dict (only the fields `attach` touches). -/
structure EnrichItem where
  surah : Int := 0
  ayah : Int := 0
  quranic_sources : List VerseSource := []
deriving DecidableEq

/-- An exercise entry during enrichment, with its `context_lines`. -/
structure ExerciseItem where
  surah : Int := 0
  ayah : Int := 0
  quranic_sources : List VerseSource := []
  context_lines : List EnrichItem := []
deriving DecidableEq

/-- The document as `enrich_with_quran_api` sees it. -/
structure EnrichDoc where
  vocabulary : List EnrichItem := []
  exercises : List ExerciseItem := []

/-- The inner `attach` of `enrich_with_quran_api` (lines 277-363). -/
def attach (cache : Int × Int → Option VerseData) (stale : Int × Int)
    (it : EnrichItem) : EnrichItem :=
  if it.surah = 0 ∨ it.ayah = 0 then it
  else
    match cache (it.surah, it.ayah) with
    | none => it
    | some vd =>
      { it with quranic_sources := it.quranic_sources ++ sourcesForVerse stale vd }

/-- `attach` applied to an exercise and then to each of its context lines
(lines 409-413). -/
def attachExercise (cache : Int × Int → Option VerseData) (stale : Int × Int)
    (e : ExerciseItem) : ExerciseItem :=
  let base := attach cache stale
    { surah := e.surah, ayah := e.ayah, quranic_sources := e.quranic_sources }
  { e with
    quranic_sources := base.quranic_sources,
    context_lines := e.context_lines.map (attach cache stale) }

/-- `add_ref2` (lines 172-174) acting on the key set, modelled as a
duplicate-free list in insertion order. -/
def addRef2 (ks : List (Int × Int)) (ch vs : Int) : List (Int × Int) :=
  if ch ≠ 0 ∧ vs ≠ 0 then
    if (ch, vs) ∈ ks then ks else ks ++ [(ch, vs)]
  else ks

/-- The context pairs an exercise contributes to the fetch set
(lines 380-383). -/
def exerciseContextPairs (e : ExerciseItem) : List (Int × Int) :=
  if e.surah ≠ 0 ∧ e.ayah ≠ 0 then
    construct_context_lines_index_list e.surah e.ayah 1 1
  else []

/-- Adding a list of context pairs to the key set via `add_ref2`. -/
def addContextPairs (ks : List (Int × Int)) (pairs : List (Int × Int)) :
    List (Int × Int) :=
  pairs.foldl (fun ks2 p => addRef2 ks2 p.1 p.2) ks

/-- One iteration of the exercise loop of the key-collection phase
(lines 374-385): the exercise's own reference, then its context pairs. -/
def exerciseKeysStep (ks : List (Int × Int)) (e : ExerciseItem) :
    List (Int × Int) :=
  addContextPairs (addRef2 ks e.surah e.ayah) (exerciseContextPairs e)

/-- The unique verse keys collected by the first phase of
`enrich_with_quran_api` (lines 367-385): vocabulary references first, then
each exercise's own reference followed by its context pairs. -/
def collectKeys (d : EnrichDoc) : List (Int × Int) :=
  let k1 := d.vocabulary.foldl (fun ks v => addRef2 ks v.surah v.ayah) []
  d.exercises.foldl exerciseKeysStep k1

/-- The list of `{"surah": ..., "ayah": ...}` context-line dicts recorded
on an exercise. -/
def contextLinesFor (ch vs : Int) : List EnrichItem :=
  (construct_context_lines_index_list ch vs 1 1).map
    (fun p => { surah := p.1, ayah := p.2, quranic_sources := [] })

/-- The `exercise.update({"context_lines": ...})` step (lines 380-385). -/
def updateExercise (e : ExerciseItem) : ExerciseItem :=
  if e.surah ≠ 0 ∧ e.ayah ≠ 0 then
    { e with context_lines := contextLinesFor e.surah e.ayah }
  else e

/-- `enrich_with_quran_api`, parameterized by the fetch iteration order
and the API behaviour.  The cache maps exactly the iterated keys to their
fetched payloads; after the fetch loop the Python loop variables `ch`/`vs`
hold the last iterated key, and `attach` closes over them. -/
def enrich_with_quran_api (d : EnrichDoc) (order : List (Int × Int))
    (api : Int × Int → VerseData) : EnrichDoc :=
  let exercises1 := d.exercises.map updateExercise
  let cache : Int × Int → Option VerseData :=
    fun k => if k ∈ order then some (api k) else none
  let stale := order.getLast?.getD (0, 0)
  { vocabulary := d.vocabulary.map (attach cache stale),
    exercises := exercises1.map (attachExercise cache stale) }

/-- Events of the enrichment run: one `fetch` per iteration of the fetch
loop (line 395), one `attachEv` per item the attach loops visit
(lines 406-413). -/
inductive EnrichEvent where
  | fetch (key : Int × Int)
  | attachEv (key : Int × Int)
deriving DecidableEq

/-- The chronological event trace of `enrich_with_quran_api`: the fetch
loop (lines 394-404) runs to completion before the attach loops
(lines 406-413) start. -/
def enrichTrace (d : EnrichDoc) (order : List (Int × Int)) : List EnrichEvent :=
  order.map EnrichEvent.fetch
    ++ (d.vocabulary.map (fun v => EnrichEvent.attachEv (v.surah, v.ayah))
      ++ (d.exercises.map updateExercise).flatMap (fun e =>
          EnrichEvent.attachEv (e.surah, e.ayah)
            :: e.context_lines.map (fun c => EnrichEvent.attachEv (c.surah, c.ayah))))

/-- Every event after the fetch phase of the trace is an attach event. -/
theorem enrichTrace_tail_attach (d : EnrichDoc) :
    ∀ ev ∈ (d.vocabulary.map (fun v => EnrichEvent.attachEv (v.surah, v.ayah))
      ++ (d.exercises.map updateExercise).flatMap (fun e =>
          EnrichEvent.attachEv (e.surah, e.ayah)
            :: e.context_lines.map (fun c => EnrichEvent.attachEv (c.surah, c.ayah)))),
      ∃ k, ev = EnrichEvent.attachEv k := by
  intro ev hev
  rcases List.mem_append.mp hev with h | h
  · rcases List.mem_map.mp h with ⟨v, _, rfl⟩
    exact ⟨_, rfl⟩
  · rcases List.mem_flatMap.mp h with ⟨e, _, he⟩
    rcases List.mem_cons.mp he with h1 | h1
    · exact ⟨_, h1⟩
    · rcases List.mem_map.mp h1 with ⟨c, _, rfl⟩
      exact ⟨_, rfl⟩

/-- Counting a fetch event in the fetch phase counts the key. -/
theorem count_fetch_map (order : List (Int × Int)) (k : Int × Int) :
    (order.map EnrichEvent.fetch).count (EnrichEvent.fetch k) = order.count k := by
  induction order with
  | nil => rfl
  | cons a t ih =>
    rw [List.map_cons, List.count_cons, List.count_cons, ih]
    congr 1
    by_cases hak : k = a
    · subst hak
      simp
    · have h1 : (EnrichEvent.fetch a == EnrichEvent.fetch k) = false := by
        simp only [beq_eq_false_iff_ne, ne_eq, EnrichEvent.fetch.injEq]
        exact fun h => hak h.symm
      have h2 : (a == k) = false := by
        simp only [beq_eq_false_iff_ne, ne_eq]
        exact fun h => hak h.symm
      rw [h1, h2]

/-- A duplicate-free list counts each member exactly once. -/
theorem count_eq_one_of_nodup_mem {α : Type} [BEq α] [LawfulBEq α]
    (l : List α) (a : α) (hnd : l.Nodup) (ha : a ∈ l) : l.count a = 1 := by
  induction l with
  | nil => cases ha
  | cons b t ih =>
    rcases List.nodup_cons.mp hnd with ⟨hb, hndt⟩
    rcases List.mem_cons.mp ha with rfl | hat
    · rw [List.count_cons_self, List.count_eq_zero.mpr hb]
    · have hne : a ≠ b := fun h => hb (h ▸ hat)
      rw [List.count_cons_of_ne hne, ih hndt hat]

/-- Fetch events, as a Boolean discriminator. -/
def isFetchEventB : EnrichEvent → Bool
  | EnrichEvent.fetch _ => true
  | EnrichEvent.attachEv _ => false

/-- In a concatenation whose first part satisfies `isF` and whose second
part falsifies it, every `isF` position precedes every non-`isF` position. -/
theorem append_phase_order {α : Type} (A B l : List α) (isF : α → Bool)
    (hl : l = A ++ B)
    (hA : ∀ x ∈ A, isF x = true) (hB : ∀ x ∈ B, isF x = false) :
    ∀ (i j : Nat) (hi : i < l.length) (hj : j < l.length),
      isF (l.get ⟨i, hi⟩) = true →
      isF (l.get ⟨j, hj⟩) = false → i < j := by
  subst hl
  intro i j hi hj hfi hfj
  have hiA : i < A.length := by
    by_contra hge
    push_neg at hge
    rw [List.get_eq_getElem, List.getElem_append_right hge] at hfi
    have hi2 : i - A.length < B.length := by
      rw [List.length_append] at hi
      omega
    have hm : B[i - A.length] ∈ B := List.getElem_mem hi2
    rw [hB _ hm] at hfi
    cases hfi
  have hjB : A.length ≤ j := by
    by_contra hlt
    push_neg at hlt
    rw [List.get_eq_getElem, List.getElem_append_left hlt] at hfj
    have hm : A[j] ∈ A := List.getElem_mem hlt
    rw [hA _ hm] at hfj
    cases hfj
  omega

/-- C1: during enrichment every unique collected verse key is fetched
exactly once (keys outside the collected set are never fetched), and every
fetch event precedes every attach event in the run's trace. -/
theorem C1_enrich_fetch_once (d : EnrichDoc) (order : List (Int × Int))
    (hnd : order.Nodup) (hmem : ∀ k, k ∈ order ↔ k ∈ collectKeys d) :
    (∀ k, k ∈ collectKeys d →
      (enrichTrace d order).count (EnrichEvent.fetch k) = 1) ∧
    (∀ k, k ∉ collectKeys d →
      (enrichTrace d order).count (EnrichEvent.fetch k) = 0) ∧
    (∀ (i j : Nat) (hi : i < (enrichTrace d order).length)
        (hj : j < (enrichTrace d order).length) (kf ka : Int × Int),
      (enrichTrace d order).get ⟨i, hi⟩ = EnrichEvent.fetch kf →
      (enrichTrace d order).get ⟨j, hj⟩ = EnrichEvent.attachEv ka → i < j) := by
  have hBzero : ∀ k : Int × Int,
      (d.vocabulary.map (fun v => EnrichEvent.attachEv (v.surah, v.ayah))
        ++ (d.exercises.map updateExercise).flatMap (fun e =>
            EnrichEvent.attachEv (e.surah, e.ayah)
              :: e.context_lines.map (fun c => EnrichEvent.attachEv (c.surah, c.ayah)))).count
        (EnrichEvent.fetch k) = 0 := by
    intro k
    refine List.count_eq_zero.mpr (fun hin => ?_)
    rcases enrichTrace_tail_attach d _ hin with ⟨k2, hk⟩
    exact absurd hk (by simp)
  refine ⟨?_, ?_, ?_⟩
  · intro k hk
    rw [enrichTrace, List.count_append, count_fetch_map, hBzero]
    rw [count_eq_one_of_nodup_mem order k hnd ((hmem k).mpr hk)]
  · intro k hk
    rw [enrichTrace, List.count_append, count_fetch_map, hBzero]
    rw [List.count_eq_zero.mpr (fun hin => hk ((hmem k).mp hin))]
  · intro i j hi hj kf ka hfi hfj
    refine append_phase_order (order.map EnrichEvent.fetch) _ (enrichTrace d order)
      isFetchEventB rfl (fun x hx => ?_) (fun x hx => ?_) i j hi hj ?_ ?_
    · rcases List.mem_map.mp hx with ⟨y, _, rfl⟩
      rfl
    · rcases enrichTrace_tail_attach d _ hx with ⟨k2, rfl⟩
      rfl
    · rw [hfi]
      rfl
    · rw [hfj]
      rfl

/-- Witness document for C1: five entries all referencing (2,255). -/
def demoDocC1 : EnrichDoc :=
  { vocabulary :=
      [{ surah := 2, ayah := 255 }, { surah := 2, ayah := 255 },
       { surah := 2, ayah := 255 }, { surah := 2, ayah := 255 },
       { surah := 2, ayah := 255 }],
    exercises := [] }

/-- Witness for C1: in the five-entry document, (2,255) is fetched exactly
once. -/
theorem C1_enrich_fetch_once_witness :
    (enrichTrace demoDocC1 (collectKeys demoDocC1)).count
      (EnrichEvent.fetch (2, 255)) = 1 :=
  (C1_enrich_fetch_once demoDocC1 (collectKeys demoDocC1) (by decide)
    (fun _ => Iff.rfl)).1 (2, 255) (by decide)

/-- Every context pair produced by `construct_context_lines_index_list`
has nonzero chapter and verse (the `if context_ch and context_vs` guard). -/
theorem construct_context_nonzero (ch vs : Int) (nb na : Nat) :
    ∀ p ∈ construct_context_lines_index_list ch vs nb na,
      p.1 ≠ 0 ∧ p.2 ≠ 0 := by
  intro p hp
  rcases List.mem_filterMap.mp hp with ⟨i, _, hif⟩
  dsimp only at hif
  split at hif
  · rename_i hcond
    cases hif
    exact hcond
  · exact absurd hif (by simp)

/-- `add_ref2` never removes keys. -/
theorem mem_addRef2_mono (ks : List (Int × Int)) (ch vs : Int)
    (k : Int × Int) (hk : k ∈ ks) : k ∈ addRef2 ks ch vs := by
  unfold addRef2
  split
  · split
    · exact hk
    · exact List.mem_append_left _ hk
  · exact hk

/-- `add_ref2` adds the given nonzero key. -/
theorem mem_addRef2_self (ks : List (Int × Int)) (ch vs : Int)
    (h1 : ch ≠ 0) (h2 : vs ≠ 0) : (ch, vs) ∈ addRef2 ks ch vs := by
  unfold addRef2
  rw [if_pos ⟨h1, h2⟩]
  split
  · assumption
  · simp

/-- Adding context pairs never removes keys. -/
theorem mem_addContextPairs_mono (pairs : List (Int × Int))
    (ks : List (Int × Int)) (k : Int × Int) (hk : k ∈ ks) :
    k ∈ addContextPairs ks pairs := by
  induction pairs generalizing ks with
  | nil => exact hk
  | cons q t ih => exact ih _ (mem_addRef2_mono ks q.1 q.2 k hk)

/-- A nonzero pair in the added list ends up in the key set. -/
theorem mem_addContextPairs_self (pairs : List (Int × Int))
    (ks : List (Int × Int)) (p : Int × Int) (hp : p ∈ pairs)
    (h1 : p.1 ≠ 0) (h2 : p.2 ≠ 0) : p ∈ addContextPairs ks pairs := by
  induction pairs generalizing ks with
  | nil => cases hp
  | cons q t ih =>
    rcases List.mem_cons.mp hp with rfl | hpt
    · exact mem_addContextPairs_mono t _ p (mem_addRef2_self ks p.1 p.2 h1 h2)
    · exact ih _ hpt

/-- The exercise key-collection fold never removes keys. -/
theorem mem_foldl_exerciseKeysStep_mono (l : List ExerciseItem)
    (acc : List (Int × Int)) (k : Int × Int) (hk : k ∈ acc) :
    k ∈ l.foldl exerciseKeysStep acc := by
  induction l generalizing acc with
  | nil => exact hk
  | cons e t ih =>
    refine ih _ ?_
    exact mem_addContextPairs_mono _ _ k (mem_addRef2_mono acc e.surah e.ayah k hk)

/-- Every context pair of every nonzero-referenced exercise ends up in the
collected fetch key set. -/
theorem mem_collectKeys_of_context (d : EnrichDoc) (e : ExerciseItem)
    (he : e ∈ d.exercises) (hs : e.surah ≠ 0) (ha : e.ayah ≠ 0)
    (p : Int × Int)
    (hp : p ∈ construct_context_lines_index_list e.surah e.ayah 1 1) :
    p ∈ collectKeys d := by
  have hgen : ∀ (l : List ExerciseItem) (acc : List (Int × Int)), e ∈ l →
      p ∈ l.foldl exerciseKeysStep acc := by
    intro l
    induction l with
    | nil => intro acc h; cases h
    | cons e2 t ih =>
      intro acc h
      rcases List.mem_cons.mp h with rfl | het
      · refine mem_foldl_exerciseKeysStep_mono t _ p ?_
        unfold exerciseKeysStep
        have hpairs : exerciseContextPairs e
            = construct_context_lines_index_list e.surah e.ayah 1 1 := by
          unfold exerciseContextPairs
          rw [if_pos ⟨hs, ha⟩]
        rw [hpairs]
        have hnz := construct_context_nonzero e.surah e.ayah 1 1 p hp
        exact mem_addContextPairs_self _ _ p hp hnz.1 hnz.2
      · exact ih (exerciseKeysStep acc e2) het
  exact hgen d.exercises _ he

/-- C2 counterexample: for an exercise referencing chapter 2 ayah 286 the
code's context window is [(2,285), (2,286)] — the claimed pair (3,1) is
not produced, because the context computation calls `get_sequential_ayah`
with `other_ch = False`, which returns (0,0) instead of crossing the
chapter boundary. -/
theorem C2_context_window_counterexample :
    get_sequential_ayah 2 286 1 false = (0, 0) ∧
    construct_context_lines_index_list 2 286 1 1 = [(2, 285), (2, 286)] ∧
    (3, 1) ∉ construct_context_lines_index_list 2 286 1 1 := by
  refine ⟨by decide, by decide, by decide⟩

/-- C2 amended: the context window is computed by sequential-ayah
arithmetic with chapter crossing disabled (`other_ch = False`): offsets
that would leave the chapter yield (0,0) and are dropped rather than
wrapped (the helper itself can wrap — `get_sequential_ayah 2 286 1 true`
is (3,1) — but the context computation never calls it that way).  For
chapter 2 ayah 286 the window is [(2,285), (2,286)], with no verse-after
entry and no error.  The computed pairs are recorded per-exercise as
`context_lines` and added to the fetch key set. -/
theorem C2_context_window_amended :
    construct_context_lines_index_list 2 286 1 1 = [(2, 285), (2, 286)] ∧
    get_sequential_ayah 2 286 1 true = (3, 1) ∧
    (∀ ch vs vsToGet : Int, vsToGet < 0 → ch ≠ 0 → vs + vsToGet ≤ 0 →
      get_sequential_ayah ch vs vsToGet false = (0, 0)) ∧
    (∀ ch vs vsToGet : Int, 0 ≤ vsToGet → ch ≠ 0 →
      vs + vsToGet > quranChapterLen ch →
      get_sequential_ayah ch vs vsToGet false = (0, 0)) ∧
    (∀ e : ExerciseItem, e.surah ≠ 0 → e.ayah ≠ 0 →
      (updateExercise e).context_lines
        = (construct_context_lines_index_list e.surah e.ayah 1 1).map
            (fun p => ({ surah := p.1, ayah := p.2, quranic_sources := [] } : EnrichItem))) ∧
    (∀ d : EnrichDoc, ∀ e ∈ d.exercises, e.surah ≠ 0 → e.ayah ≠ 0 →
      ∀ p ∈ construct_context_lines_index_list e.surah e.ayah 1 1,
        p ∈ collectKeys d) := by
  refine ⟨by decide, by decide, ?_, ?_, ?_, ?_⟩
  · intro ch vs vsToGet hneg hch hle
    unfold get_sequential_ayah
    rw [if_pos hneg, if_pos hle]
    rfl
  · intro ch vs vsToGet hnonneg hch hgt
    unfold get_sequential_ayah
    rw [if_neg (by omega), if_pos hgt]
    rfl
  · intro e hs ha
    unfold updateExercise contextLinesFor
    rw [if_pos ⟨hs, ha⟩]
  · intro d e he hs ha p hp
    exact mem_collectKeys_of_context d e he hs ha p hp

/-- Witness for C2 amended at a concrete exercise document. -/
theorem C2_context_window_amended_witness :
    get_sequential_ayah 2 286 1 false = (0, 0) ∧
    (updateExercise { surah := 2, ayah := 286 }).context_lines
      = [{ surah := 2, ayah := 285 }, { surah := 2, ayah := 286 }] ∧
    (2, 285) ∈ collectKeys
      { vocabulary := [], exercises := [{ surah := 2, ayah := 286 }] } := by
  refine ⟨C2_context_window_amended.2.2.2.1 2 286 1 (by decide) (by decide) (by decide), ?_, ?_⟩
  · have h := C2_context_window_amended.2.2.2.2.1
      { surah := 2, ayah := 286 } (by decide) (by decide)
    rw [h]
    decide
  · exact C2_context_window_amended.2.2.2.2.2
      { vocabulary := [], exercises := [{ surah := 2, ayah := 286 }] }
      { surah := 2, ayah := 286 } (by simp) (by decide) (by decide)
      (2, 285) (by decide)

/-- A duplicate-free list with exactly the members {a, b} (a ≠ b) is one
of the two orderings of the pair. -/
theorem nodup_pair_eq {α : Type} (l : List α) (a b : α) (hab : a ≠ b)
    (hnd : l.Nodup) (hm : ∀ k, k ∈ l ↔ k = a ∨ k = b) :
    l = [a, b] ∨ l = [b, a] := by
  cases l with
  | nil => exact absurd ((hm a).mpr (Or.inl rfl)) (by simp)
  | cons x t =>
    cases t with
    | nil =>
      have hxa : a = x := by simpa using (hm a).mpr (Or.inl rfl)
      have hxb : b = x := by simpa using (hm b).mpr (Or.inr rfl)
      exact absurd (hxa.trans hxb.symm) hab
    | cons y u =>
      cases u with
      | nil =>
        have hx := (hm x).mp (by simp)
        have hy := (hm y).mp (by simp)
        have hxy : x ≠ y := by
          rcases List.nodup_cons.mp hnd with ⟨h1, _⟩
          intro h
          exact h1 (by simp [h])
        rcases hx with rfl | rfl
        · rcases hy with rfl | rfl
          · exact absurd rfl hxy
          · exact Or.inl rfl
        · rcases hy with rfl | rfl
          · exact Or.inr rfl
          · exact absurd rfl hxy
      | cons z v =>
        have hx := (hm x).mp (by simp)
        have hy := (hm y).mp (by simp)
        have hz := (hm z).mp (by simp)
        rcases List.nodup_cons.mp hnd with ⟨hx1, hnd2⟩
        rcases List.nodup_cons.mp hnd2 with ⟨hy1, _⟩
        have hxy : x ≠ y := fun h => hx1 (by simp [h])
        have hxz : x ≠ z := fun h => hx1 (by simp [h])
        have hyz : y ≠ z := fun h => hy1 (by simp [h])
        rcases hx with hx | hx <;> rcases hy with hy | hy <;> rcases hz with hz | hz
        · exact absurd (hx.trans hy.symm) hxy
        · exact absurd (hx.trans hy.symm) hxy
        · exact absurd (hx.trans hz.symm) hxz
        · exact absurd (hy.trans hz.symm) hyz
        · exact absurd (hy.trans hz.symm) hyz
        · exact absurd (hx.trans hz.symm) hxz
        · exact absurd (hx.trans hy.symm) hxy
        · exact absurd (hx.trans hy.symm) hxy

/-- The uthmani verse source built from the stale URL key is among the
sources `attach` appends, whenever the response carries uthmani text. -/
theorem uthmani_mem_sources (stale : Int × Int) (vd : VerseData)
    (h : vd.text_uthmani ≠ []) :
    ({ source_name := "quran.com".toList,
       source_url := quranUrl stale.1 stale.2,
       text_type := "uthmani".toList, language := "arabic".toList,
       text := vd.text_uthmani } : VerseSource) ∈ sourcesForVerse stale vd := by
  unfold sourcesForVerse
  refine List.mem_append_left _ ?_
  refine List.mem_append_left _ ?_
  refine List.mem_append_right _ ?_
  rw [if_pos h]
  exact List.mem_singleton_self _

/-- Witness document for C10: two vocabulary entries referencing two
distinct verses. -/
def demoDocC10 : EnrichDoc :=
  { vocabulary := [{ surah := 1, ayah := 1 }, { surah := 2, ayah := 2 }],
    exercises := [] }

/-- C10: because `attach` builds `source_url` from the fetch loop's
`ch`/`vs` variables (which, after the loop, hold the last iterated key)
rather than from the item's own reference, enriching a document whose
entries reference two distinct verses attaches to some entry a source URL
whose verse key is not that entry's own (surah, ayah) — for every possible
set-iteration order and any API responses carrying uthmani text. -/
theorem C10_stale_source_url (api : Int × Int → VerseData)
    (order : List (Int × Int)) (hnd : order.Nodup)
    (hmem : ∀ k, k ∈ order ↔ k ∈ collectKeys demoDocC10)
    (h1 : (api (1, 1)).text_uthmani ≠ [])
    (h2 : (api (2, 2)).text_uthmani ≠ []) :
    ∃ it ∈ (enrich_with_quran_api demoDocC10 order api).vocabulary,
      ∃ s ∈ it.quranic_sources,
        s.source_url ≠ quranUrl it.surah it.ayah := by
  have hck : collectKeys demoDocC10 = [(1, 1), (2, 2)] := by decide
  have hmem2 : ∀ k, k ∈ order ↔ k = ((1 : Int), (1 : Int)) ∨ k = ((2 : Int), (2 : Int)) := by
    intro k
    rw [hmem k, hck]
    simp
  have horder := nodup_pair_eq order (1, 1) (2, 2) (by decide) hnd hmem2
  rcases horder with rfl | rfl
  · have hv : (enrich_with_quran_api demoDocC10 [(1, 1), (2, 2)] api).vocabulary
        = [{ surah := 1, ayah := 1,
             quranic_sources := sourcesForVerse (2, 2) (api (1, 1)) },
           { surah := 2, ayah := 2,
             quranic_sources := sourcesForVerse (2, 2) (api (2, 2)) }] := by
      simp [enrich_with_quran_api, demoDocC10, attach]
    refine ⟨{ surah := 1, ayah := 1,
              quranic_sources := sourcesForVerse (2, 2) (api (1, 1)) },
            by rw [hv]; simp, ?_⟩
    refine ⟨_, uthmani_mem_sources (2, 2) (api (1, 1)) h1, ?_⟩
    show quranUrl 2 2 ≠ quranUrl 1 1
    decide
  · have hv : (enrich_with_quran_api demoDocC10 [(2, 2), (1, 1)] api).vocabulary
        = [{ surah := 1, ayah := 1,
             quranic_sources := sourcesForVerse (1, 1) (api (1, 1)) },
           { surah := 2, ayah := 2,
             quranic_sources := sourcesForVerse (1, 1) (api (2, 2)) }] := by
      simp [enrich_with_quran_api, demoDocC10, attach]
    refine ⟨{ surah := 2, ayah := 2,
              quranic_sources := sourcesForVerse (1, 1) (api (2, 2)) },
            by rw [hv]; simp, ?_⟩
    refine ⟨_, uthmani_mem_sources (1, 1) (api (2, 2)) h2, ?_⟩
    show quranUrl 1 1 ≠ quranUrl 2 2
    decide

/-- A concrete API response carrying uthmani text for every key. -/
def demoApiC10 : Int × Int → VerseData :=
  fun k => { text_uthmani := "X".toList ++ Py.intStr k.1 }

/-- Witness for C10 with a concrete fetch order and API. -/
theorem C10_stale_source_url_witness :
    ∃ it ∈ (enrich_with_quran_api demoDocC10 (collectKeys demoDocC10)
        demoApiC10).vocabulary,
      ∃ s ∈ it.quranic_sources,
        s.source_url ≠ quranUrl it.surah it.ayah :=
  C10_stale_source_url demoApiC10 (collectKeys demoDocC10) (by decide)
    (fun _ => Iff.rfl) (by decide) (by decide)

/-! ## C7 and C8: the record builder `build_json_from_rows`
(`src/textbook_data.py`, lines 254-457). -/

/-- `guess_sort_letter_arabic` from `src/textbook_data.py` (lines 117-123). -/
def guess_sort_letter_arabic (s : List Char) : List Char × Int :=
  match s with
  | c :: _ => ([c], 0)
  | [] => ([], -1)

/-- A raw row as the record builder reads it.  `read_csv` produces rows
containing every header column, so the always-read columns are plain
strings ([] for blank); `Arabic Text` and `Sing. / Perf.` only exist in
some header layouts, and the code probes them with `in row`, so they are
`Option`. -/
structure TRow where
  lessonNum : List Char := []
  exVoc : List Char := []
  exerciseNum : List Char := []
  sura : List Char := []
  verse : List Char := []
  arabicText : Option (List Char) := none
  singPerf : Option (List Char) := none
  dualImperf : List Char := []
  pluralVN : List Char := []
  english : List Char := []
  verbForm : List Char := []
deriving DecidableEq

/-- One entry of a vocabulary record's `definitions` list. -/
structure TDefinition where
  english_definition : List Char
  source_name : List Char
  english_sort_letter : List Char
  english_sort_start_index : Int
deriving DecidableEq

/-- A vocabulary record as appended by `build_json_from_rows`
(lines 405-443).  The noun branch stores no `arabic_sort_start_index`
(hence the `Option`) and no `verb_form`. -/
structure TVocabEntry where
  chapter_vocab : Int
  part_of_speech : List Char
  verb_form : Option (List Char) := none
  col1 : List Char := []
  col2 : List Char := []
  col3 : List Char := []
  arabic_sort_letter : List Char := []
  arabic_sort_start_index : Option Int := none
  english_meanings : List Char := []
  english_meanings_sort_letter : List Char := []
  english_meanings_sort_start_index : Int := 0
  source_name : List Char := []
  definitions : List TDefinition := []
deriving DecidableEq

/-- An exercise record as appended by `build_json_from_rows`
(lines 293-343).  The special-case `"B"` record is created without a
`quranic_sources` key (line 293-302), tracked by
`quranic_sources_present`. -/
structure TExerciseEntry where
  exercise_text : List Char := []
  exercise_chapter : Int := 0
  exercise_number : Int := 0
  quranic_reference : List Char := []
  surah : Int := 0
  ayah : Int := 0
  quranic_sources_present : Bool := true
deriving DecidableEq

/-- The per-definition loop of the vocabulary branch (lines 379-395):
split `english_meanings` on commas, strip each piece and guess its sort
key independently, passing the already-guessed part of speech; `none`
models a crash of the guess (`IndexError`). -/
def defsFromMeanings (english : List Char) (pos : List Char) :
    Option (List TDefinition) :=
  (Py.splitOnChar ',' english).mapM (fun piece => do
    let t := Py.strip piece
    let g ← guess_sort_letter_part_of_speech_english t (some pos)
    some { english_definition := t, source_name := "textbook_jones".toList,
           english_sort_letter := g.1, english_sort_start_index := g.2.1 })

/-- The vocabulary branch of `build_json_from_rows` (lines 344-446) for a
single row: takes the previous row's guessed part of speech, returns the
appended entry (if any) and the new previous-part-of-speech state; `none`
models an uncaught `IndexError` from the sort-key heuristic. -/
def vocabStep (prevPos : List Char) (row : TRow) (chapterNumber : Int) :
    Option (Option TVocabEntry × List Char) := do
  let english := row.english
  let g ← guess_sort_letter_part_of_speech_english english none
  let posGuess :=
    if g.2.2 = "noun".toList ∧ row.singPerf.getD [] ≠ [] ∧ row.dualImperf ≠ []
        ∧ row.pluralVN ≠ [] ∧ prevPos = "verb".toList
    then "verb".toList else g.2.2
  let col1 := Py.strip (row.singPerf.getD [])
  let col2 := Py.strip row.dualImperf
  let col3 := Py.strip row.pluralVN
  let stringToGuess :=
    if col1 ≠ [] then col1
    else if col2 ≠ [] then col2
    else if col3 ≠ [] then col3
    else []
  let ar := guess_sort_letter_arabic stringToGuess
  let defs ← defsFromMeanings english posGuess
  if posGuess = "verb".toList then
    some (some { chapter_vocab := chapterNumber,
                 part_of_speech := "verb".toList,
                 verb_form := some (Py.strip row.verbForm),
                 col1 := col1, col2 := col2, col3 := col3,
                 arabic_sort_letter := ar.1,
                 arabic_sort_start_index := some ar.2,
                 english_meanings := english,
                 english_meanings_sort_letter := g.1,
                 english_meanings_sort_start_index := g.2.1,
                 source_name := "textbook_jones".toList,
                 definitions := defs }, posGuess)
  else if posGuess = "noun".toList then
    some (some { chapter_vocab := chapterNumber,
                 part_of_speech := "noun".toList,
                 verb_form := none,
                 col1 := col1, col2 := col2, col3 := col3,
                 arabic_sort_letter := ar.1,
                 arabic_sort_start_index := none,
                 english_meanings := english,
                 english_meanings_sort_letter := g.1,
                 english_meanings_sort_start_index := g.2.1,
                 source_name := "textbook_jones".toList,
                 definitions := defs }, posGuess)
  else
    some (none, posGuess)

/-- The exercise branch of `build_json_from_rows` (lines 282-343) for a
single row: integer parse failure of the exercise number logs and uses 0,
except that the literal identifier `"B"` (on any chapter) is remapped to
exercise number 21 with a synthesized text from the two columns; `none`
models an uncaught `ValueError` from `int()` on a truthy bad `Sura`
or `Verse`. -/
def exerciseStep (row : TRow) (chapterNumber : Int) : Option TExerciseEntry :=
  let normal : Int → Option TExerciseEntry := fun n => do
    let sura ← if row.sura ≠ [] then Py.pyInt row.sura else some 0
    let verse ← if row.verse ≠ [] then Py.pyInt row.verse else some 0
    let qref :=
      if sura ≠ 0 ∧ verse ≠ 0 then
        Py.intStr sura ++ ":".toList ++ Py.intStr verse
      else []
    let text :=
      match row.arabicText with
      | some t => t
      | none =>
        match row.singPerf with
        | some t => t
        | none => []
    some { exercise_text := text, exercise_chapter := chapterNumber,
           exercise_number := n, quranic_reference := qref,
           surah := sura, ayah := verse, quranic_sources_present := true }
  match Py.pyInt row.exerciseNum with
  | some n => normal n
  | none =>
    if row.exerciseNum = "B".toList then
      some { exercise_text := row.singPerf.getD [] ++ ": ".toList ++ row.pluralVN,
             exercise_chapter := chapterNumber, exercise_number := 21,
             quranic_reference := [], surah := 0, ayah := 0,
             quranic_sources_present := false }
    else normal 0

/-- One row of the main loop of `build_json_from_rows` (lines 273-449),
acting on the state (vocab so far, exercises so far, previous guessed
part of speech). -/
def buildStep (st : List TVocabEntry × List TExerciseEntry × List Char)
    (row : TRow) : Option (List TVocabEntry × List TExerciseEntry × List Char) :=
  let chapterNumber :=
    match Py.pyInt row.lessonNum with
    | some n => n
    | none => 0
  if Py.lower row.exVoc = "exercise".toList then do
    let e ← exerciseStep row chapterNumber
    some (st.1, st.2.1 ++ [e], st.2.2)
  else if Py.lower row.exVoc = "vocabulary".toList then do
    let out ← vocabStep st.2.2 row chapterNumber
    match out.1 with
    | some v => some (st.1 ++ [v], st.2.1, out.2)
    | none => some (st.1, st.2.1, out.2)
  else
    some st

/-- `build_json_from_rows` from `src/textbook_data.py` (lines 254-457):
returns the vocabulary and exercise collections; `none` models an uncaught
exception on a malformed row. -/
def build_json_from_rows (rows : List TRow) :
    Option (List TVocabEntry × List TExerciseEntry) := do
  let st ← rows.foldlM buildStep ([], [], [])
  some (st.1, st.2.1)

/-- A vocabulary row with English text but all three Arabic columns
blank. -/
def rowC7 : TRow :=
  { lessonNum := "1".toList, exVoc := "Vocabulary".toList,
    singPerf := some [], english := "a book".toList }

/-- The vocabulary entry the builder produces from `rowC7`. -/
def entryC7 : TVocabEntry :=
  { chapter_vocab := 1, part_of_speech := "noun".toList,
    verb_form := none, col1 := [], col2 := [], col3 := [],
    arabic_sort_letter := [], arabic_sort_start_index := none,
    english_meanings := "a book".toList,
    english_meanings_sort_letter := "a".toList,
    english_meanings_sort_start_index := 0,
    source_name := "textbook_jones".toList,
    definitions := [{ english_definition := "a book".toList,
                      source_name := "textbook_jones".toList,
                      english_sort_letter := "a".toList,
                      english_sort_start_index := 0 }] }

example : build_json_from_rows [rowC7] = some ([entryC7], []) := by decide

/-- An exercise row with the non-numeric identifier `B` on lesson 5. -/
def rowC8 : TRow :=
  { lessonNum := "5".toList, exVoc := "Exercise".toList,
    exerciseNum := "B".toList, singPerf := some "ab".toList,
    pluralVN := "cd".toList }

example : build_json_from_rows [rowC8] =
    some ([], [{ exercise_text := "ab: cd".toList, exercise_chapter := 5,
                 exercise_number := 21, quranic_reference := [],
                 surah := 0, ayah := 0, quranic_sources_present := false }]) := by decide

/-- Characterization of an appended vocabulary entry: its Arabic columns
are the stripped row columns, its meanings string is the row's English
field, and its definitions are exactly the comma-split, independently
guessed definitions of that string. -/
theorem vocabStep_entry_spec (prevPos : List Char) (row : TRow)
    (ch : Int) (e : TVocabEntry) (p2 : List Char)
    (h : vocabStep prevPos row ch = some (some e, p2)) :
    e.col1 = Py.strip (row.singPerf.getD []) ∧
    e.col2 = Py.strip row.dualImperf ∧
    e.col3 = Py.strip row.pluralVN ∧
    e.english_meanings = row.english ∧
    defsFromMeanings row.english e.part_of_speech = some e.definitions := by
  unfold vocabStep at h
  dsimp only at h
  cases hg : guess_sort_letter_part_of_speech_english row.english none with
  | none => rw [hg] at h; exact absurd h (by simp)
  | some g =>
    rw [hg] at h
    simp only [Option.bind_eq_bind, Option.some_bind] at h
    cases hd : defsFromMeanings row.english
        (if g.2.2 = "noun".toList ∧ row.singPerf.getD [] ≠ [] ∧ row.dualImperf ≠ []
            ∧ row.pluralVN ≠ [] ∧ prevPos = "verb".toList
         then "verb".toList else g.2.2) with
    | none => rw [hd] at h; exact absurd h (by simp)
    | some defs =>
      rw [hd] at h
      simp only [Option.some_bind] at h
      split at h
      · rename_i hcond
        rw [if_pos rfl] at h
        rw [if_pos hcond] at hd
        injection h with h3
        injection h3 with h4 h5
        injection h4 with h6
        subst h6
        exact ⟨rfl, rfl, rfl, rfl, hd⟩
      · rename_i hcond
        rw [if_neg hcond] at hd
        split at h
        · rename_i hverb
          rw [hverb] at hd
          injection h with h3
          injection h3 with h4 h5
          injection h4 with h6
          subst h6
          exact ⟨rfl, rfl, rfl, rfl, hd⟩
        · split at h
          · rename_i hnoun
            rw [hnoun] at hd
            injection h with h3
            injection h3 with h4 h5
            injection h4 with h6
            subst h6
            exact ⟨rfl, rfl, rfl, rfl, hd⟩
          · injection h with h3
            injection h3 with h4 h5
            exact absurd h4 (by simp)

/-- Every vocabulary entry in the builder's output was produced by the
vocabulary branch from some input row. -/
theorem build_vocab_provenance (rows : List TRow)
    (st stout : List TVocabEntry × List TExerciseEntry × List Char)
    (h : rows.foldlM buildStep st = some stout) :
    ∀ v ∈ stout.1, v ∈ st.1 ∨ ∃ prevPos row ch p2, row ∈ rows ∧
      vocabStep prevPos row ch = some (some v, p2) := by
  induction rows generalizing st with
  | nil =>
    intro v hv
    simp only [List.foldlM_nil] at h
    cases h
    exact Or.inl hv
  | cons r t ih =>
    intro v hv
    rw [List.foldlM_cons] at h
    cases hstep : buildStep st r with
    | none =>
      rw [hstep] at h
      exact absurd h (by simp)
    | some st1 =>
      rw [hstep] at h
      simp only [Option.bind_eq_bind, Option.some_bind] at h
      rcases ih st1 h v hv with hin | hex
      · unfold buildStep at hstep
        dsimp only at hstep
        split at hstep
        · cases he : exerciseStep r
            (match Py.pyInt r.lessonNum with | some n => n | none => 0) with
          | none =>
            rw [he] at hstep
            exact absurd hstep (by simp)
          | some e =>
            rw [he] at hstep
            simp only [Option.bind_eq_bind, Option.some_bind] at hstep
            injection hstep with h2
            rw [← h2] at hin
            exact Or.inl hin
        · split at hstep
          · cases ho : vocabStep st.2.2 r
              (match Py.pyInt r.lessonNum with | some n => n | none => 0) with
            | none =>
              rw [ho] at hstep
              exact absurd hstep (by simp)
            | some out =>
              rw [ho] at hstep
              simp only [Option.bind_eq_bind, Option.some_bind] at hstep
              cases hout : out.1 with
              | some v2 =>
                rw [hout] at hstep
                injection hstep with h2
                rw [← h2] at hin
                rcases List.mem_append.mp hin with h3 | h3
                · exact Or.inl h3
                · have hv2 : v = v2 := by simpa using h3
                  subst hv2
                  refine Or.inr ⟨st.2.2, r,
                    (match Py.pyInt r.lessonNum with | some n => n | none => 0),
                    out.2, by simp, ?_⟩
                  rw [ho, ← hout]
              | none =>
                rw [hout] at hstep
                injection hstep with h2
                rw [← h2] at hin
                exact Or.inl hin
          · injection hstep with h2
            rw [← h2] at hin
            exact Or.inl hin
      · obtain ⟨pp, row, ch, p2, hrow, hvs⟩ := hex
        exact Or.inr ⟨pp, row, ch, p2, by simp [hrow], hvs⟩

/-- C7 counterexample: a vocabulary row whose three Arabic columns are all
blank still produces a vocabulary entry (the builder only logs an ERROR,
line 397-399), so the "at least one Arabic form non-empty" invariant fails
on the builder's output. -/
theorem C7_vocab_invariant_counterexample :
    build_json_from_rows [rowC7] = some ([entryC7], []) ∧
    entryC7.col1 = [] ∧ entryC7.col2 = [] ∧ entryC7.col3 = [] := by decide

/-- C7 amended: every vocabulary entry of the builder's output arises from
an input row via the vocabulary branch, with its Arabic-form fields equal
to the stripped row columns and its `definitions` derived by splitting
`english_meanings` on commas with independently guessed sort keys; the
"at least one Arabic form non-empty" invariant holds for exactly the rows
with at least one non-blank Arabic column — a row with all three blank is
logged as an error but still appended. -/
theorem C7_vocab_invariant_amended :
    (∀ rows doc, build_json_from_rows rows = some doc →
      ∀ v ∈ doc.1, ∃ prevPos row ch p2,
        row ∈ rows ∧ vocabStep prevPos row ch = some (some v, p2) ∧
        v.col1 = Py.strip (row.singPerf.getD []) ∧
        v.col2 = Py.strip row.dualImperf ∧
        v.col3 = Py.strip row.pluralVN ∧
        v.english_meanings = row.english ∧
        defsFromMeanings row.english v.part_of_speech = some v.definitions) ∧
    (∀ prevPos row ch v p2, vocabStep prevPos row ch = some (some v, p2) →
      (Py.strip (row.singPerf.getD []) ≠ [] ∨ Py.strip row.dualImperf ≠ [] ∨
        Py.strip row.pluralVN ≠ []) →
      (v.col1 ≠ [] ∨ v.col2 ≠ [] ∨ v.col3 ≠ [])) := by
  constructor
  · intro rows doc hb v hv
    unfold build_json_from_rows at hb
    cases hst : rows.foldlM buildStep ([], [], []) with
    | none =>
      rw [hst] at hb
      exact absurd hb (by simp)
    | some st =>
      rw [hst] at hb
      simp only [Option.bind_eq_bind, Option.some_bind] at hb
      injection hb with hb2
      rw [← hb2] at hv
      rcases build_vocab_provenance rows ([], [], []) st hst v hv with h0 | hex
      · cases h0
      · obtain ⟨pp, row, ch, p2, hrow, hvs⟩ := hex
        obtain ⟨h1, h2, h3, h4, h5⟩ := vocabStep_entry_spec pp row ch v p2 hvs
        exact ⟨pp, row, ch, p2, hrow, hvs, h1, h2, h3, h4, h5⟩
  · intro prevPos row ch v p2 hvs hnz
    obtain ⟨h1, h2, h3, _, _⟩ := vocabStep_entry_spec prevPos row ch v p2 hvs
    rcases hnz with h | h | h
    · exact Or.inl (h1 ▸ h)
    · exact Or.inr (Or.inl (h2 ▸ h))
    · exact Or.inr (Or.inr (h3 ▸ h))

/-- A vocabulary row with a non-blank first Arabic column. -/
def rowC7w : TRow :=
  { lessonNum := "1".toList, exVoc := "Vocabulary".toList,
    singPerf := some "كتاب".toList, english := "a book".toList }

/-- The entry the builder produces from `rowC7w`. -/
def entryC7w : TVocabEntry :=
  { chapter_vocab := 1, part_of_speech := "noun".toList,
    verb_form := none, col1 := "كتاب".toList, col2 := [], col3 := [],
    arabic_sort_letter := "ك".toList, arabic_sort_start_index := none,
    english_meanings := "a book".toList,
    english_meanings_sort_letter := "a".toList,
    english_meanings_sort_start_index := 0,
    source_name := "textbook_jones".toList,
    definitions := [{ english_definition := "a book".toList,
                      source_name := "textbook_jones".toList,
                      english_sort_letter := "a".toList,
                      english_sort_start_index := 0 }] }

/-- Witness for C7 amended at a concrete row. -/
theorem C7_vocab_invariant_amended_witness :
    (∃ prevPos row ch p2, row ∈ [rowC7w] ∧
      vocabStep prevPos row ch = some (some entryC7w, p2) ∧
      entryC7w.col1 = Py.strip (row.singPerf.getD []) ∧
      entryC7w.col2 = Py.strip row.dualImperf ∧
      entryC7w.col3 = Py.strip row.pluralVN ∧
      entryC7w.english_meanings = row.english ∧
      defsFromMeanings row.english entryC7w.part_of_speech
        = some entryC7w.definitions) ∧
    (entryC7w.col1 ≠ [] ∨ entryC7w.col2 ≠ [] ∨ entryC7w.col3 ≠ []) :=
  ⟨C7_vocab_invariant_amended.1 [rowC7w] ([entryC7w], []) (by decide)
      entryC7w (by decide),
   C7_vocab_invariant_amended.2 [] rowC7w 1 entryC7w "noun".toList
      (by decide) (Or.inl (by decide))⟩

/-- C8 counterexample: an `Exercise #` of `"B"` on lesson 5 (not the known
lesson-3 special case) is still remapped to exercise number 21 with the
synthesized text — the remap has no chapter check. -/
theorem C8_exercise_number_counterexample :
    build_json_from_rows [rowC8] =
      some ([], [{ exercise_text := "ab: cd".toList, exercise_chapter := 5,
                   exercise_number := 21, quranic_reference := [],
                   surah := 0, ayah := 0,
                   quranic_sources_present := false }]) ∧
    (5 : Int) ≠ 3 := by decide

/-- C8 amended: an exercise row whose number fails integer parsing gets
exercise number 0 (a warning, never an abort, provided its Sura/Verse
fields are themselves parseable) — except that the literal identifier
`"B"` is remapped, on any chapter, to exercise number 21 with a text
synthesized from the `Sing. / Perf.` and `Plural / Verbal N.` columns. -/
theorem C8_exercise_number_amended :
    (∀ row ch, Py.pyInt row.exerciseNum = none →
      row.exerciseNum = "B".toList →
      exerciseStep row ch = some
        { exercise_text := row.singPerf.getD [] ++ ": ".toList ++ row.pluralVN,
          exercise_chapter := ch, exercise_number := 21,
          quranic_reference := [], surah := 0, ayah := 0,
          quranic_sources_present := false }) ∧
    (∀ row ch e, Py.pyInt row.exerciseNum = none →
      row.exerciseNum ≠ "B".toList →
      exerciseStep row ch = some e → e.exercise_number = 0) ∧
    (∀ row ch, Py.pyInt row.exerciseNum = none →
      row.exerciseNum ≠ "B".toList →
      (row.sura = [] ∨ (Py.pyInt row.sura).isSome) →
      (row.verse = [] ∨ (Py.pyInt row.verse).isSome) →
      (exerciseStep row ch).isSome) := by
  refine ⟨?_, ?_, ?_⟩
  · intro row ch h1 h2
    unfold exerciseStep
    rw [h1]
    dsimp only
    rw [if_pos h2]
  · intro row ch e h1 h2 he
    unfold exerciseStep at he
    rw [h1] at he
    dsimp only at he
    rw [if_neg h2] at he
    split at he
    · cases hy : Py.pyInt row.sura with
      | none =>
        rw [hy] at he
        exact absurd he (by simp)
      | some a =>
        rw [hy] at he
        simp only [Option.bind_eq_bind, Option.some_bind] at he
        split at he
        · cases hv2 : Py.pyInt row.verse with
          | none =>
            rw [hv2] at he
            exact absurd he (by simp)
          | some b =>
            rw [hv2] at he
            simp only [Option.bind_eq_bind, Option.some_bind] at he
            injection he with he2
            rw [← he2]
        · injection he with he2
          rw [← he2]
    · split at he
      · cases hv2 : Py.pyInt row.verse with
        | none =>
          rw [hv2] at he
          exact absurd he (by simp)
        | some b =>
          rw [hv2] at he
          simp only [Option.bind_eq_bind, Option.some_bind] at he
          injection he with he2
          rw [← he2]
      · injection he with he2
        rw [← he2]
  · intro row ch h1 h2 h3 h4
    unfold exerciseStep
    rw [h1]
    dsimp only
    rw [if_neg h2]
    split
    · rename_i hsneq
      obtain ⟨a, ha⟩ : ∃ a, Py.pyInt row.sura = some a := by
        rcases h3 with h | h
        · exact absurd h hsneq
        · exact Option.isSome_iff_exists.mp h
      rw [ha]
      simp only [Option.bind_eq_bind, Option.some_bind]
      split
      · rename_i hvneq
        obtain ⟨b, hb⟩ : ∃ b, Py.pyInt row.verse = some b := by
          rcases h4 with h | h
          · exact absurd h hvneq
          · exact Option.isSome_iff_exists.mp h
        rw [hb]
        simp
      · simp
    · simp only [Option.bind_eq_bind, Option.some_bind]
      split
      · rename_i hvneq
        obtain ⟨b, hb⟩ : ∃ b, Py.pyInt row.verse = some b := by
          rcases h4 with h | h
          · exact absurd h hvneq
          · exact Option.isSome_iff_exists.mp h
        rw [hb]
        simp
      · simp

/-- An exercise row whose number is unparseable and not `"B"`. -/
def rowC8w : TRow :=
  { lessonNum := "4".toList, exVoc := "Exercise".toList,
    exerciseNum := "7x".toList, arabicText := some "نص".toList,
    sura := "2".toList, verse := "10".toList }

/-- Witness for C8 amended: `"B"` on lesson 5 is remapped to 21; an
unparseable non-`B` number becomes 0 without aborting. -/
theorem C8_exercise_number_amended_witness :
    exerciseStep rowC8 5 = some
      { exercise_text := "ab: cd".toList, exercise_chapter := 5,
        exercise_number := 21, quranic_reference := [], surah := 0,
        ayah := 0, quranic_sources_present := false } ∧
    (∀ e, exerciseStep rowC8w 4 = some e → e.exercise_number = 0) ∧
    (exerciseStep rowC8w 4).isSome :=
  ⟨by
    have h := C8_exercise_number_amended.1 rowC8 5 (by decide) (by decide)
    simpa using h,
   fun e he => C8_exercise_number_amended.2.1 rowC8w 4 e (by decide)
      (by decide) he,
   C8_exercise_number_amended.2.2 rowC8w 4 (by decide) (by decide)
      (Or.inr (by decide)) (Or.inr (by decide))⟩

/-! ## C9: OCR vocabulary-line parsing
(`src/process_textbook_llm_output.py`, `parse_vocabulary_line`,
lines 395-562). -/

/-- The regex class `\p{Script_Extensions=Arabic}`, modelled by the Arabic
Unicode blocks (the spec-relevant data uses the basic 0600-06FF block). -/
def isArabicChar (c : Char) : Bool :=
  (0x600 ≤ c.val && c.val ≤ 0x6FF) || (0x750 ≤ c.val && c.val ≤ 0x77F) ||
  (0x870 ≤ c.val && c.val ≤ 0x8FF) ||
  (0xFB50 ≤ c.val && c.val ≤ 0xFDFF) || (0xFE70 ≤ c.val && c.val ≤ 0xFEFF) ||
  (0x10E60 ≤ c.val && c.val ≤ 0x10E7F) || (0x10EC0 ≤ c.val && c.val ≤ 0x10EFF) ||
  (0x1EC70 ≤ c.val && c.val ≤ 0x1ECBF) || (0x1ED00 ≤ c.val && c.val ≤ 0x1ED4F) ||
  (0x1EE00 ≤ c.val && c.val ≤ 0x1EEFF)

/-- `contains_arabic_text` (lines 218-221). -/
def contains_arabic_text (s : List Char) : Bool := s.any isArabicChar

/-- Match of the verb-form pattern `\s*\{(\d{1,2})\}\s*` anchored at the
start of `s`: returns the digit group and the rest after the match. -/
def matchBraceAt (s : List Char) : Option (List Char × List Char) :=
  let a := (s.takeWhile Py.isPySpace).length
  match s.drop a with
  | '{' :: rest =>
    match rest with
    | d1 :: rest2 =>
      if d1.isDigit then
        match rest2 with
        | '}' :: rest3 => some ([d1], rest3.drop (rest3.takeWhile Py.isPySpace).length)
        | d2 :: rest3 =>
          match rest3 with
          | '}' :: rest4 =>
            if d2.isDigit then
              some ([d1, d2], rest4.drop (rest4.takeWhile Py.isPySpace).length)
            else none
          | _ => none
        | [] => none
      else none
    | [] => none
  | _ => none

/-- `re.search(pattern_verb_form, line).group(1)`: digits of the first
verb-form match, scanning left to right. -/
def findVerbForm : List Char → Option (List Char)
  | [] => none
  | c :: rest =>
    match matchBraceAt (c :: rest) with
    | some (ds, _) => some ds
    | none => findVerbForm rest

/-- `re.sub(pattern_verb_form, " ", line)`: replace every non-overlapping
verb-form match with one space (fuel-based; one character is consumed per
step at minimum, so `s.length` fuel suffices). -/
def subVerbFormGo : Nat → List Char → List Char
  | 0, s => s
  | _ + 1, [] => []
  | fuel + 1, c :: rest =>
    match matchBraceAt (c :: rest) with
    | some (_, after) => ' ' :: subVerbFormGo fuel after
    | none => c :: subVerbFormGo fuel rest

/-- `re.sub(pattern_verb_form, " ", line)`. -/
def subVerbForm (s : List Char) : List Char := subVerbFormGo s.length s

/-- `re.search(r"\(.*\s?pl\.\s?.*\)", line)`: true iff the line has a `(`,
then (anything) the text `pl.`, then (anything) a `)`. -/
def matchPlural (s : List Char) : Bool :=
  (List.range s.length).any (fun i =>
    (s.drop i).headD '?' = '(' &&
    (List.range s.length).any (fun k =>
      i < k && Py.substrAt s "pl.".toList k &&
      (List.range s.length).any (fun j =>
        k + 3 ≤ j && (s.drop j).headD '?' = ')')))

/-- `re.sub(r"\s*\/\s*", "/", line)`: collapse whitespace around each
slash (fuel-based left-to-right scan, like `re.sub`). -/
def subSlashGo : Nat → List Char → List Char
  | 0, s => s
  | _ + 1, [] => []
  | fuel + 1, c :: rest =>
    let s := c :: rest
    let a := (s.takeWhile Py.isPySpace).length
    match s.drop a with
    | '/' :: rest2 =>
      '/' :: subSlashGo fuel (rest2.drop (rest2.takeWhile Py.isPySpace).length)
    | _ => c :: subSlashGo fuel rest

/-- `re.sub(r"\s*\/\s*", "/", line)`. -/
def subSlash (s : List Char) : List Char := subSlashGo s.length s

/-- Python `" ".join(parts)`. -/
def joinSpace : List (List Char) → List Char
  | [] => []
  | [x] => x
  | x :: y :: rest => x ++ ' ' :: joinSpace (y :: rest)

/-- The token-classification while-loop of `parse_vocabulary_line`
(lines 440-470): walks the whitespace-split parts, sorting them into
Arabic words, transliterations (chapters ≤ 5 only) and English parts. -/
def classifyTokens (vocabType : List Char) (lesson : Int) :
    List (List Char) → List (List Char) → List (List Char) → List (List Char) →
    List (List Char) × List (List Char) × List (List Char)
  | [], ar, tr, en => (ar, tr, en)
  | [p], ar, tr, en =>
    if contains_arabic_text p then
      let step :=
        if en = [] then (ar ++ [p], en)
        else if en.length < 2 then (ar ++ [p], en)
        else if vocabType = "idiom".toList then (ar ++ [p], en)
        else (ar, en ++ [p])
      (step.1, tr, step.2)
    else (ar, tr, en ++ [p])
  | p :: q :: rest2, ar, tr, en =>
    if contains_arabic_text p then
      let step :=
        if en = [] then (ar ++ [p], en)
        else if en.length < 2 then (ar ++ [p], en)
        else if vocabType = "idiom".toList then (ar ++ [p], en)
        else (ar, en ++ [p])
      if lesson ≤ 5 ∧ ¬contains_arabic_text q ∧ (q.headD ' ').isLower then
        classifyTokens vocabType lesson rest2 step.1 (tr ++ [q]) step.2
      else
        classifyTokens vocabType lesson (q :: rest2) step.1 tr step.2
    else
      classifyTokens vocabType lesson (q :: rest2) ar tr (en ++ [p])

/-- The column-assignment block of `parse_vocabulary_line`
(lines 481-556), returning `(col1, col2, col3, english_text)` (the
2-header overflow path appends shunted words to the English text);
`none` is the `return None` of an unexpected vocabulary type. -/
def assignColumns (vocabType : List Char) (headers : List (List Char))
    (aw : List (List Char)) (sngIdx : Int) (plural : Bool)
    (etext : List Char) :
    Option (List Char × List Char × List Char × List Char) :=
  if vocabType = "verb".toList then
    some (aw.headD [], (aw.drop 1).headD [], (aw.drop 2).headD [], etext)
  else if vocabType = "noun".toList then
    if headers.length = 1 then
      if headers.headD [] = "SINGULAR".toList then
        some (aw.headD [], [], [], etext)
      else if headers.headD [] = "DUAL".toList then
        some ([], aw.headD [], [], etext)
      else if headers.headD [] = "PLURAL".toList then
        some ([], [], aw.headD [], etext)
      else some ([], [], [], etext)
    else if headers.length = 2 then
      if aw.length = 1 then
        if sngIdx = -1 ∧ plural then some ([], [], aw.headD [], etext)
        else some (aw.headD [], [], [], etext)
      else
        if aw.length > 2 then
          some (aw.headD [], [], (aw.drop 1).headD [],
            etext ++ ";; ".toList ++ joinSpace (aw.drop 2))
        else some (aw.headD [], [], (aw.drop 1).headD [], etext)
    else if headers.length = 3 then
      if aw.length = 1 then
        if sngIdx = -1 ∧ plural then some ([], [], aw.headD [], etext)
        else some (aw.headD [], [], [], etext)
      else
        if aw.length > 2 then
          some (aw.headD [], (aw.drop 1).headD [], (aw.drop 2).headD [], etext)
        else some (aw.headD [], (aw.drop 1).headD [], [], etext)
    else some (aw.headD [], [], [], etext)
  else if vocabType = "idiom".toList then
    some (joinSpace aw, [], [], etext)
  else none

/-- The OCR-parser state fields that `parse_vocabulary_line` reads. -/
structure OcrState where
  current_page : Int := 0
  current_lesson : Int := 0
  current_vocab_type : List Char := "noun".toList
  vocabulary_headers : List (List Char) := []

/-- The dict returned by `parse_vocabulary_line` (lines 558-562). -/
structure OcrVocabEntry where
  page_number : Int
  lesson_number : Int
  column1 : List Char
  column2 : List Char
  column3 : List Char
  english_translations : List Char
  verb_form : List Char
  part_of_speech : List Char
  transliterations : List Char
  raw_line : List Char
deriving DecidableEq

/-- `parse_vocabulary_line` from `src/process_textbook_llm_output.py`
(lines 395-562). -/
def parse_vocabulary_line (st : OcrState) (line0 : List Char) :
    Option OcrVocabEntry :=
  let line1 := Py.strip line0
  if line1 = [] ∨ contains_arabic_text line1 = false then none
  else
    let vf :=
      if st.current_vocab_type = "verb".toList then
        match findVerbForm line1 with
        | some ds => (ds, subVerbForm line1)
        | none => ([], line1)
      else ([], line1)
    let indexLineSng := Py.pyFind vf.2 "(s.)".toList
    let matchPl := matchPlural vf.2
    let line3 := subSlash vf.2
    let parts := Py.splitWs line3
    if parts.length < 2 then none
    else
      let cls := classifyTokens st.current_vocab_type st.current_lesson parts [] [] []
      let etext0 := joinSpace cls.2.2
      if cls.1 = [] then none
      else
        let etext1 :=
          if cls.1.length > 3 then
            etext0 ++ ";; ".toList ++ joinSpace (cls.1.drop 3)
          else etext0
        match assignColumns st.current_vocab_type st.vocabulary_headers cls.1
            indexLineSng matchPl etext1 with
        | some out =>
          some { page_number := st.current_page,
                 lesson_number := st.current_lesson,
                 column1 := out.1, column2 := out.2.1, column3 := out.2.2.1,
                 english_translations := out.2.2.2,
                 verb_form := vf.1,
                 part_of_speech := st.current_vocab_type,
                 transliterations := joinSpace cls.2.1,
                 raw_line := line3 }
        | none => none

/-- The OCR state for a 3-column noun table in a late lesson. -/
def stC9 : OcrState :=
  { current_page := 100, current_lesson := 10,
    current_vocab_type := "noun".toList,
    vocabulary_headers := ["SINGULAR".toList, "DUAL".toList, "PLURAL".toList] }

example : parse_vocabulary_line stC9 "كتب (pl.) books".toList =
    some { page_number := 100, lesson_number := 10,
           column1 := [], column2 := [], column3 := "كتب".toList,
           english_translations := "(pl.) books".toList,
           verb_form := [], part_of_speech := "noun".toList,
           transliterations := [], raw_line := "كتب (pl.) books".toList } := by
  decide

/-- Column assignment under a 3-column noun header for a single Arabic
token with a plural marker and no singular marker: the token goes to
column 3 and column 1 stays empty. -/
theorem assignColumns_noun3_plural (headers : List (List Char))
    (w etext : List Char) (hh : headers.length = 3) :
    assignColumns "noun".toList headers [w] (-1) true etext
      = some ([], [], w, etext) := by
  unfold assignColumns
  rw [if_neg (by decide : ¬(("noun".toList : List Char) = "verb".toList))]
  rw [if_pos rfl]
  rw [if_neg (by omega : ¬(headers.length = 1))]
  rw [if_neg (by omega : ¬(headers.length = 2))]
  rw [if_pos hh]
  rw [if_pos (by simp : ([w] : List (List Char)).length = 1)]
  rw [if_pos ⟨rfl, rfl⟩]
  rfl

/-- C9: under a 3-column noun header, a vocabulary line whose
classification yields exactly one Arabic token, containing a `(pl.)`-style
marker and no `(s.)` marker, has that token assigned to column 3 with
column 1 (and column 2) left empty. -/
theorem C9_plural_column_assignment (st : OcrState) (line : List Char)
    (entry : OcrVocabEntry) (w : List Char)
    (hnoun : st.current_vocab_type = "noun".toList)
    (hhead : st.vocabulary_headers.length = 3)
    (hp : parse_vocabulary_line st line = some entry)
    (haw : (classifyTokens st.current_vocab_type st.current_lesson
        (Py.splitWs (subSlash (Py.strip line))) [] [] []).1 = [w])
    (hsng : Py.pyFind (Py.strip line) "(s.)".toList = -1)
    (hpl : matchPlural (Py.strip line) = true) :
    entry.column1 = [] ∧ entry.column2 = [] ∧ entry.column3 = w := by
  rw [hnoun] at haw
  unfold parse_vocabulary_line at hp
  rw [hnoun] at hp
  dsimp only at hp
  rw [if_neg (by decide : ¬(("noun".toList : List Char) = "verb".toList))] at hp
  dsimp only at hp
  split at hp
  · exact absurd hp (by simp)
  · split at hp
    · exact absurd hp (by simp)
    · rw [haw] at hp
      split at hp
      · exact absurd hp (by simp)
      · rw [hsng, hpl] at hp
        rw [if_neg (by simp : ¬(([w] : List (List Char)).length > 3))] at hp
        rw [assignColumns_noun3_plural st.vocabulary_headers w _ hhead] at hp
        dsimp only at hp
        injection hp with h2
        rw [← h2]
        exact ⟨rfl, rfl, rfl⟩

/-- The entry parsed from the witness line. -/
def entryC9 : OcrVocabEntry :=
  { page_number := 100, lesson_number := 10,
    column1 := [], column2 := [], column3 := "كتب".toList,
    english_translations := "(pl.) books".toList,
    verb_form := [], part_of_speech := "noun".toList,
    transliterations := [], raw_line := "كتب (pl.) books".toList }

/-- Witness for C9 at a concrete single-token plural line. -/
theorem C9_plural_column_assignment_witness :
    entryC9.column1 = [] ∧ entryC9.column2 = [] ∧
    entryC9.column3 = "كتب".toList :=
  C9_plural_column_assignment stC9 "كتب (pl.) books".toList entryC9
    "كتب".toList (by decide) (by decide) (by decide) (by decide)
    (by decide) (by decide)

/-! ## C6: JSON serialization round trip
(`src/textbook_enrich.py`, `write_json` lines 418-423 and `read_json`
lines 426-428).  `write_json` is `json.dump(data, fh, ensure_ascii=False,
indent=2, sort_keys=True)` followed by one newline; `read_json` is
`json.load`.  The document model covers the value kinds the canonical
documents contain (null, booleans, arbitrary-precision integers, strings,
arrays, string-keyed objects; the pipeline's documents contain no
floats).  Strings are modelled per code point, exactly as Python. -/

mutual
/-- A JSON value (mutually inductive with its list/pairs spines so that
all functions below are structurally recursive and kernel-evaluable). -/
inductive Json where
  | null
  | bool (b : Bool)
  | int (n : Int)
  | str (s : List Char)
  | arr (xs : JsonList)
  | obj (kvs : JsonPairs)
deriving DecidableEq

/-- Spine of a JSON array. -/
inductive JsonList where
  | nil
  | cons (hd : Json) (tl : JsonList)
deriving DecidableEq

/-- Spine of a JSON object (key/value pairs in order). -/
inductive JsonPairs where
  | nil
  | cons (key : List Char) (val : Json) (tl : JsonPairs)
deriving DecidableEq
end

/-- Lowercase hex digit, as in Python's `'\u%04x'` escapes. -/
def hexDigitChar (n : Nat) : Char :=
  if n < 10 then Char.ofNat (48 + n) else Char.ofNat (87 + n)

/-- Python `json`'s per-character string escaping with
`ensure_ascii=False`: only `"`, `\` and control characters below 0x20 are
escaped (the named C escapes where they exist, `\u00xx` otherwise); all
other characters, including non-ASCII, pass through unescaped. -/
def escChar (c : Char) : List Char :=
  if c = '"' then ['\\', '"']
  else if c = '\\' then ['\\', '\\']
  else if c = '\x08' then ['\\', 'b']
  else if c = '\x0c' then ['\\', 'f']
  else if c = '\n' then ['\\', 'n']
  else if c = '\r' then ['\\', 'r']
  else if c = '\t' then ['\\', 't']
  else if c.toNat < 0x20 then
    ['\\', 'u', '0', '0', hexDigitChar (c.toNat / 16), hexDigitChar (c.toNat % 16)]
  else [c]

/-- Serialize a JSON string with quotes. -/
def encStr (s : List Char) : List Char :=
  '"' :: (s.flatMap escChar ++ ['"'])

/-- The newline-plus-indent separator `json.dump` emits for `indent=2` at
nesting level `lv`. -/
def nlIndent (lv : Nat) : List Char :=
  '\n' :: List.replicate (2 * lv) ' '

/-- Stable insertion into a key-sorted pair list (Python string `<=` is
code-point lexicographic, our `lexLe`). -/
def insPair (k : List Char) (v : Json) : JsonPairs → JsonPairs
  | .nil => .cons k v .nil
  | .cons k2 v2 t =>
    if lexLe k k2 then .cons k v (.cons k2 v2 t)
    else .cons k2 v2 (insPair k v t)

mutual
/-- `sort_keys=True`: recursively sort every object's pairs by key (for
canonical documents this is the identity). -/
def sortJson : Json → Json
  | .null => .null
  | .bool b => .bool b
  | .int n => .int n
  | .str s => .str s
  | .arr xs => .arr (sortJsonList xs)
  | .obj kvs => .obj (sortJsonPairs kvs)

/-- `sortJson` on an array spine. -/
def sortJsonList : JsonList → JsonList
  | .nil => .nil
  | .cons x t => .cons (sortJson x) (sortJsonList t)

/-- `sortJson` on an object spine (insertion sort by key). -/
def sortJsonPairs : JsonPairs → JsonPairs
  | .nil => .nil
  | .cons k v t => insPair k (sortJson v) (sortJsonPairs t)
end

mutual
/-- `json.dump(..., ensure_ascii=False, indent=2)` on an already
key-sorted value, at nesting level `lv`. -/
def encodeJson : Nat → Json → List Char
  | _, .null => "null".toList
  | _, .bool true => "true".toList
  | _, .bool false => "false".toList
  | _, .int n => Py.intStr n
  | _, .str s => encStr s
  | _, .arr .nil => "[]".toList
  | lv, .arr (.cons x xs) =>
    '[' :: (nlIndent (lv + 1) ++ encodeJson (lv + 1) x
      ++ encodeMoreItems (lv + 1) xs ++ nlIndent lv ++ [']'])
  | _, .obj .nil => "{}".toList
  | lv, .obj (.cons k v kvs) =>
    '{' :: (nlIndent (lv + 1) ++ encStr k ++ ':' :: ' ' :: encodeJson (lv + 1) v
      ++ encodeMorePairs (lv + 1) kvs ++ nlIndent lv ++ ['}'])

/-- The `,\n<indent>` separated items after the first array element. -/
def encodeMoreItems : Nat → JsonList → List Char
  | _, .nil => []
  | lv, .cons x xs =>
    ',' :: (nlIndent lv ++ encodeJson lv x ++ encodeMoreItems lv xs)

/-- The `,\n<indent>` separated pairs after the first object member. -/
def encodeMorePairs : Nat → JsonPairs → List Char
  | _, .nil => []
  | lv, .cons k v kvs =>
    ',' :: (nlIndent lv ++ encStr k ++ ':' :: ' ' :: encodeJson lv v
      ++ encodeMorePairs lv kvs)
end

/-- `write_json` from `src/textbook_enrich.py` (lines 418-423), as the
character stream written to the file: `json.dump(data, fh,
ensure_ascii=False, indent=2, sort_keys=True)` followed by
`fh.write("\n")`. -/
def write_json (d : Json) : List Char :=
  encodeJson 0 (sortJson d) ++ ['\n']

/-- JSON inter-token whitespace (`json`'s `[ \t\n\r]*`). -/
def skipWs (s : List Char) : List Char :=
  s.dropWhile (fun c => c = ' ' || c = '\t' || c = '\n' || c = '\r')

/-- Value of one hex digit, as accepted by `json`'s `\uXXXX` escapes. -/
def hexVal (c : Char) : Option Nat :=
  if c.isDigit then some (c.toNat - 48)
  else if 'a' ≤ c && c ≤ 'f' then some (c.toNat - 87)
  else if 'A' ≤ c && c ≤ 'F' then some (c.toNat - 55)
  else none

/-- `json`'s string scanner after the opening quote: decodes escapes,
rejects unterminated strings, raw control characters and bad escapes.
(Surrogate-pair recombination is not modelled; `write_json` never emits
`\uXXXX` above 0x1f.) -/
def parseStringBody (acc : List Char) : List Char → Option (List Char × List Char)
  | [] => none
  | c :: rest =>
    if c = '"' then some (acc, rest)
    else if c = '\\' then
      match rest with
      | [] => none
      | e :: rest2 =>
        if e = '"' then parseStringBody (acc ++ ['"']) rest2
        else if e = '\\' then parseStringBody (acc ++ ['\\']) rest2
        else if e = '/' then parseStringBody (acc ++ ['/']) rest2
        else if e = 'b' then parseStringBody (acc ++ ['\x08']) rest2
        else if e = 'f' then parseStringBody (acc ++ ['\x0c']) rest2
        else if e = 'n' then parseStringBody (acc ++ ['\n']) rest2
        else if e = 'r' then parseStringBody (acc ++ ['\r']) rest2
        else if e = 't' then parseStringBody (acc ++ ['\t']) rest2
        else if e = 'u' then
          match rest2 with
          | h1 :: h2 :: h3 :: h4 :: rest3 =>
            match hexVal h1, hexVal h2, hexVal h3, hexVal h4 with
            | some a, some b, some c2, some d =>
              parseStringBody
                (acc ++ [Char.ofNat (((a * 16 + b) * 16 + c2) * 16 + d)]) rest3
            | _, _, _, _ => none
          | _ => none
        else none
    else if c.toNat < 0x20 then none
    else parseStringBody (acc ++ [c]) rest

/-- Maximal-munch decimal digit scan. -/
def parseDigitsGo (acc : Nat) : List Char → Nat × List Char
  | [] => (acc, [])
  | c :: rest =>
    if c.isDigit then parseDigitsGo (acc * 10 + (c.toNat - 48)) rest
    else (acc, c :: rest)

/-- `json`'s number production, restricted to integers: an optional minus
sign and digits; a following `.`/`e`/`E` would start a float, which the
canonical documents (and hence this model) exclude. -/
def parseNumber (s : List Char) : Option (Json × List Char) :=
  match s with
  | [] => none
  | c :: rest =>
    if c = '-' then
      match rest with
      | c2 :: _ =>
        if c2.isDigit then
          let p := parseDigitsGo 0 rest
          if p.2.headD '?' = '.' || p.2.headD '?' = 'e' || p.2.headD '?' = 'E' then none
          else some (.int (-(p.1 : Int)), p.2)
        else none
      | [] => none
    else if c.isDigit then
      let p := parseDigitsGo 0 (c :: rest)
      if p.2.headD '?' = '.' || p.2.headD '?' = 'e' || p.2.headD '?' = 'E' then none
      else some (.int (p.1 : Int), p.2)
    else none

mutual
/-- Recursive-descent JSON value parser (fuel-based; the fuel only needs
to exceed the nesting depth). -/
def parseValue : Nat → List Char → Option (Json × List Char)
  | 0, _ => none
  | fuel + 1, s =>
    match s with
    | [] => none
    | c :: rest =>
      if c = 'n' then
        match rest with
        | 'u' :: 'l' :: 'l' :: r => some (.null, r)
        | _ => none
      else if c = 't' then
        match rest with
        | 'r' :: 'u' :: 'e' :: r => some (.bool true, r)
        | _ => none
      else if c = 'f' then
        match rest with
        | 'a' :: 'l' :: 's' :: 'e' :: r => some (.bool false, r)
        | _ => none
      else if c = '"' then
        match parseStringBody [] rest with
        | some (t, r) => some (.str t, r)
        | none => none
      else if c = '[' then
        let s1 := skipWs rest
        if s1.headD '?' = ']' then some (.arr .nil, s1.drop 1)
        else
          match parseArrayItems fuel s1 with
          | some (xs, r) => some (.arr xs, r)
          | none => none
      else if c = '{' then
        let s1 := skipWs rest
        if s1.headD '?' = '}' then some (.obj .nil, s1.drop 1)
        else
          match parseObjectPairs fuel s1 with
          | some (kvs, r) => some (.obj kvs, r)
          | none => none
      else parseNumber s

/-- One-or-more comma-separated array items up to the closing `]`. -/
def parseArrayItems : Nat → List Char → Option (JsonList × List Char)
  | 0, _ => none
  | fuel + 1, s =>
    match parseValue fuel s with
    | none => none
    | some (v, r) =>
      match skipWs r with
      | ',' :: r2 =>
        match parseArrayItems fuel (skipWs r2) with
        | none => none
        | some (tl, r3) => some (.cons v tl, r3)
      | ']' :: r2 => some (.cons v .nil, r2)
      | _ => none

/-- One-or-more comma-separated `"key": value` members up to the closing
`}`. -/
def parseObjectPairs : Nat → List Char → Option (JsonPairs × List Char)
  | 0, _ => none
  | fuel + 1, s =>
    match s with
    | '"' :: rest =>
      match parseStringBody [] rest with
      | none => none
      | some (k, r) =>
        match skipWs r with
        | ':' :: r2 =>
          match parseValue fuel (skipWs r2) with
          | none => none
          | some (v, r3) =>
            match skipWs r3 with
            | ',' :: r4 =>
              match parseObjectPairs fuel (skipWs r4) with
              | none => none
              | some (tl, r5) => some (.cons k v tl, r5)
            | '}' :: r4 => some (.cons k v .nil, r4)
            | _ => none
        | _ => none
    | _ => none
end

/-- `read_json` from `src/textbook_enrich.py` (lines 426-428): `json.load`
on the file's character stream — skip leading whitespace, parse one value,
require only whitespace after it. -/
def read_json (cs : List Char) : Option Json :=
  match parseValue (cs.length + 1) (skipWs cs) with
  | some (v, rest) => if skipWs rest = [] then some v else none
  | none => none

/-- A sample canonical document exercising every value kind. -/
def demoDocC6 : Json :=
  .obj (.cons "exercises".toList
          (.arr (.cons (.obj (.cons "ayah".toList (.int 255)
                              (.cons "surah".toList (.int 2) .nil)))
                 (.cons (.str "آية".toList) .nil)))
        (.cons "lesson".toList (.obj .nil)
          (.cons "note".toList (.str "a\"b\\c\nd".toList)
            (.cons "ok".toList (.bool true) .nil))))

example : read_json (write_json (.int (-12))) = some (.int (-12)) := by decide
example : read_json (write_json (.str "آية \"x\"\t".toList))
    = some (.str "آية \"x\"\t".toList) := by decide

/-! ### Canonical documents and `sort_keys` as identity -/

/-- Strict code-point lexicographic order on strings (Python `<`). -/
def lexLt : List Char → List Char → Bool
  | [], [] => false
  | [], _ :: _ => true
  | _ :: _, [] => false
  | a :: as, b :: bs =>
    if a.val < b.val then true
    else if b.val < a.val then false
    else lexLt as bs

/-- Object keys strictly increasing, so that `sort_keys=True` is a no-op. -/
def keysStrictSorted : JsonPairs → Bool
  | .nil => true
  | .cons _ _ .nil => true
  | .cons k _ (.cons k2 v2 t) => lexLt k k2 && keysStrictSorted (.cons k2 v2 t)

mutual
/-- Canonical documents: every object's keys strictly sorted, recursively.
The pipeline's documents (written with `sort_keys=True`, keys unique) are
canonical. -/
def canonicalJson : Json → Bool
  | .null => true
  | .bool _ => true
  | .int _ => true
  | .str _ => true
  | .arr xs => canonicalJsonList xs
  | .obj kvs => keysStrictSorted kvs && canonicalJsonPairs kvs

/-- `canonicalJson` on an array spine. -/
def canonicalJsonList : JsonList → Bool
  | .nil => true
  | .cons x t => canonicalJson x && canonicalJsonList t

/-- `canonicalJson` on the values of an object spine. -/
def canonicalJsonPairs : JsonPairs → Bool
  | .nil => true
  | .cons _ v t => canonicalJson v && canonicalJsonPairs t
end

theorem lexLe_of_lexLt (a : List Char) : ∀ b, lexLt a b = true → lexLe a b = true := by
  induction a with
  | nil => intro b _; rfl
  | cons x as ih =>
    intro b h
    cases b with
    | nil => rw [lexLt] at h; exact absurd h (by simp)
    | cons y bs =>
      rw [lexLt] at h
      rw [lexLe]
      by_cases h1 : x.val < y.val
      · rw [if_pos h1]
      · rw [if_neg h1] at h ⊢
        by_cases h2 : y.val < x.val
        · rw [if_pos h2] at h; exact absurd h (by simp)
        · rw [if_neg h2] at h ⊢; exact ih bs h

theorem insPair_lt_head (k : List Char) (v : Json) (k2 : List Char) (v2 : Json)
    (t : JsonPairs) (h : lexLt k k2 = true) :
    insPair k v (.cons k2 v2 t) = .cons k v (.cons k2 v2 t) := by
  rw [insPair, if_pos (lexLe_of_lexLt k k2 h)]

mutual
theorem sortJson_id : ∀ v : Json, canonicalJson v = true → sortJson v = v
  | .null, _ => rfl
  | .bool _, _ => rfl
  | .int _, _ => rfl
  | .str _, _ => rfl
  | .arr xs, h => by
    rw [canonicalJson] at h
    rw [sortJson, sortJsonList_id xs h]
  | .obj kvs, h => by
    rw [canonicalJson, Bool.and_eq_true] at h
    rw [sortJson, sortJsonPairs_id kvs h.1 h.2]

theorem sortJsonList_id : ∀ xs : JsonList, canonicalJsonList xs = true →
    sortJsonList xs = xs
  | .nil, _ => rfl
  | .cons x t, h => by
    rw [canonicalJsonList, Bool.and_eq_true] at h
    rw [sortJsonList, sortJson_id x h.1, sortJsonList_id t h.2]

theorem sortJsonPairs_id : ∀ kvs : JsonPairs, keysStrictSorted kvs = true →
    canonicalJsonPairs kvs = true → sortJsonPairs kvs = kvs
  | .nil, _, _ => rfl
  | .cons k v .nil, _, hv => by
    rw [canonicalJsonPairs, Bool.and_eq_true] at hv
    rw [sortJsonPairs, sortJsonPairs, sortJson_id v hv.1]
    rfl
  | .cons k v (.cons k2 v2 t), hs, hv => by
    rw [keysStrictSorted, Bool.and_eq_true] at hs
    rw [canonicalJsonPairs, Bool.and_eq_true] at hv
    rw [sortJsonPairs, sortJson_id v hv.1,
        sortJsonPairs_id (.cons k2 v2 t) hs.2 hv.2]
    exact insPair_lt_head k v k2 v2 t hs.1
end

/-! ### Size functions bounding the parser fuel -/

mutual
/-- Structural size of a value; the encoding is at least this long, so the
fuel `length + 1` used by `read_json` always suffices. -/
def jsize : Json → Nat
  | .null => 1
  | .bool _ => 1
  | .int _ => 1
  | .str _ => 1
  | .arr xs => 1 + lsize xs
  | .obj kvs => 1 + psize kvs

/-- `jsize` over an array spine. -/
def lsize : JsonList → Nat
  | .nil => 0
  | .cons x t => 1 + jsize x + lsize t

/-- `jsize` over an object spine. -/
def psize : JsonPairs → Nat
  | .nil => 0
  | .cons _ v t => 1 + jsize v + psize t
end

theorem jsize_pos : ∀ v : Json, 1 ≤ jsize v
  | .null => le_refl 1
  | .bool _ => le_refl 1
  | .int _ => le_refl 1
  | .str _ => le_refl 1
  | .arr xs => by rw [jsize]; omega
  | .obj kvs => by rw [jsize]; omega

/-! ### Character and token lemmas for the JSON round trip -/

/-- A continuation stream that cannot extend a number token: empty or
starting with a character other than a digit, `.`, `e`, `E`.  Every
follower the serializer produces satisfies this. -/
def goodFollow (s : List Char) : Bool :=
  match s with
  | [] => true
  | c :: _ => !(c.isDigit || c = '.' || c = 'e' || c = 'E')

theorem char_toNat_ofNat (n : Nat) (h : Nat.isValidChar n) : (Char.ofNat n).toNat = n := by
  unfold Char.ofNat
  rw [dif_pos h]
  rfl

theorem char_ofNat_toNat (c : Char) : Char.ofNat c.toNat = c := by
  have h1 := char_toNat_ofNat c.toNat c.valid
  apply Char.eq_of_val_eq
  exact UInt32.ext h1

theorem char_ne_of_toNat_ne {a b : Char} (h : a.toNat ≠ b.toNat) : a ≠ b :=
  fun hab => h (by rw [hab])

theorem isDigit_iff_toNat (c : Char) : c.isDigit = true ↔ 48 ≤ c.toNat ∧ c.toNat ≤ 57 := by
  simp [Char.isDigit, Char.le_def, Char.toNat]
  exact Iff.rfl

theorem digitChar_toNat (m : Nat) (h : m < 10) : (Py.digitChar m).toNat = 48 + m :=
  char_toNat_ofNat (48 + m) (Or.inl (by omega))

theorem digitChar_isDigit (m : Nat) (h : m < 10) : (Py.digitChar m).isDigit = true := by
  rw [isDigit_iff_toNat, digitChar_toNat m h]
  omega

theorem natDigitsGo_eq (n : Nat) : ∀ f1 f2, n < f1 → n < f2 →
    Py.natDigitsGo f1 n = Py.natDigitsGo f2 n := by
  induction n using Nat.strong_induction_on with
  | _ n ih =>
    intro f1 f2 h1 h2
    cases f1 with
    | zero => omega
    | succ f1 =>
      cases f2 with
      | zero => omega
      | succ f2 =>
        rw [Py.natDigitsGo, Py.natDigitsGo]
        by_cases hn : n < 10
        · rw [if_pos hn, if_pos hn]
        · rw [if_neg hn, if_neg hn]
          have hd : n / 10 < n := Nat.div_lt_self (by omega) (by omega)
          rw [ih (n / 10) hd f1 f2 (by omega) (by omega)]

theorem natDigits_all_digits (n : Nat) : ∀ c ∈ Py.natDigits n, c.isDigit = true := by
  rw [Py.natDigits]
  generalize hf : n + 1 = fuel
  have hlt : n < fuel := by omega
  clear hf
  induction n using Nat.strong_induction_on generalizing fuel with
  | _ n ih =>
    cases fuel with
    | zero => omega
    | succ fuel =>
      rw [Py.natDigitsGo]
      by_cases hn : n < 10
      · rw [if_pos hn]
        intro c hc
        rw [List.mem_singleton] at hc
        rw [hc]
        exact digitChar_isDigit n hn
      · rw [if_neg hn]
        intro c hc
        rw [List.mem_append] at hc
        rcases hc with hc | hc
        · have hd : n / 10 < n := Nat.div_lt_self (by omega) (by omega)
          exact ih (n / 10) hd fuel (by omega) c hc
        · rw [List.mem_singleton] at hc
          rw [hc]
          exact digitChar_isDigit (n % 10) (Nat.mod_lt n (by omega))

theorem natDigits_ne_nil (n : Nat) : Py.natDigits n ≠ [] := by
  rw [Py.natDigits, Py.natDigitsGo]
  by_cases hn : n < 10
  · rw [if_pos hn]; simp
  · rw [if_neg hn]; simp

theorem natDigits_head_digit (n : Nat) :
    ∃ d ds, Py.natDigits n = d :: ds ∧ d.isDigit = true := by
  cases hnd : Py.natDigits n with
  | nil => exact absurd hnd (natDigits_ne_nil n)
  | cons d ds =>
    exact ⟨d, ds, rfl, natDigits_all_digits n d (hnd ▸ List.mem_cons_self d ds)⟩

theorem parseDigitsGo_natDigits (n : Nat) : ∀ acc rest,
    parseDigitsGo acc (Py.natDigits n ++ rest)
      = parseDigitsGo (acc * 10 ^ (Py.natDigits n).length + n) rest := by
  induction n using Nat.strong_induction_on with
  | _ n ih =>
    intro acc rest
    rw [Py.natDigits, Py.natDigitsGo]
    by_cases hn : n < 10
    · rw [if_pos hn, List.singleton_append, parseDigitsGo]
      rw [if_pos (digitChar_isDigit n hn), digitChar_toNat n hn]
      rw [show acc * 10 + (48 + n - 48) = acc * 10 ^ [Py.digitChar n].length + n from by
        rw [List.length_singleton, pow_one]; omega]
    · rw [if_neg hn]
      have hd : n / 10 < n := Nat.div_lt_self (by omega) (by omega)
      have he : Py.natDigitsGo n (n / 10) = Py.natDigits (n / 10) := by
        rw [Py.natDigits]
        exact natDigitsGo_eq (n / 10) n (n / 10 + 1) hd (Nat.lt_succ_self _)
      rw [he, List.append_assoc, List.singleton_append, ih (n / 10) hd acc _]
      rw [parseDigitsGo]
      rw [if_pos (digitChar_isDigit (n % 10) (Nat.mod_lt n (by omega)))]
      rw [digitChar_toNat (n % 10) (Nat.mod_lt n (by omega))]
      rw [List.length_append, List.length_singleton, pow_succ, ← Nat.mul_assoc]
      rw [show (acc * 10 ^ (Py.natDigits (n / 10)).length + n / 10) * 10 + (48 + n % 10 - 48)
            = acc * 10 ^ (Py.natDigits (n / 10)).length * 10 + n from by
        generalize acc * 10 ^ (Py.natDigits (n / 10)).length = A
        omega]

theorem parseDigitsGo_spec (n : Nat) (rest : List Char)
    (h : (rest.headD '?').isDigit = false) :
    parseDigitsGo 0 (Py.natDigits n ++ rest) = (n, rest) := by
  rw [parseDigitsGo_natDigits, Nat.zero_mul, Nat.zero_add]
  cases rest with
  | nil => rw [parseDigitsGo]
  | cons c r =>
    rw [List.headD_cons] at h
    rw [parseDigitsGo, if_neg (by simp [h])]

theorem parseNumber_intStr (i : Int) (rest : List Char) (hg : goodFollow rest = true) :
    parseNumber (Py.intStr i ++ rest) = some (.int i, rest) := by
  have hrest : (rest.headD '?').isDigit = false ∧ rest.headD '?' ≠ '.' ∧
      rest.headD '?' ≠ 'e' ∧ rest.headD '?' ≠ 'E' := by
    cases rest with
    | nil => exact ⟨by decide, by decide, by decide, by decide⟩
    | cons c r =>
      rw [goodFollow] at hg
      simp only [Bool.not_eq_true', Bool.or_eq_false_iff, decide_eq_false_iff_not] at hg
      rw [List.headD_cons]
      exact ⟨hg.1.1.1, hg.1.1.2, hg.1.2, hg.2⟩
  obtain ⟨d, ds, hnd, hdig⟩ := natDigits_head_digit i.natAbs
  have hd48 : 48 ≤ d.toNat ∧ d.toNat ≤ 57 := (isDigit_iff_toNat d).mp hdig
  have hdm : d ≠ '-' := char_ne_of_toNat_ne (by
    rw [show ('-').toNat = 45 from rfl]; omega)
  have hspec : parseDigitsGo 0 (Py.natDigits i.natAbs ++ rest) = (i.natAbs, rest) :=
    parseDigitsGo_spec i.natAbs rest hrest.1
  have hneq : ¬(rest.headD '?' = '.' ∨ rest.headD '?' = 'e' ∨ rest.headD '?' = 'E') := by
    intro hc
    rcases hc with hc | hc | hc
    · exact hrest.2.1 hc
    · exact hrest.2.2.1 hc
    · exact hrest.2.2.2 hc
  rw [Py.intStr]
  by_cases hi : i < 0
  · rw [if_pos hi, List.cons_append, hnd, List.cons_append]
    rw [parseNumber.eq_def]
    dsimp only
    rw [if_pos rfl, if_pos hdig]
    rw [← List.cons_append, ← hnd, hspec]
    dsimp only
    rw [if_neg (by simp only [Bool.or_eq_true, decide_eq_true_eq, not_or]; exact ⟨⟨hrest.2.1, hrest.2.2.1⟩, hrest.2.2.2⟩)]
    have h2 : -((i.natAbs : Int)) = i := by omega
    rw [h2]
  · rw [if_neg hi, hnd, List.cons_append]
    rw [parseNumber.eq_def]
    dsimp only
    rw [if_neg hdm, if_pos hdig]
    rw [← List.cons_append, ← hnd, hspec]
    dsimp only
    rw [if_neg (by simp only [Bool.or_eq_true, decide_eq_true_eq, not_or]; exact ⟨⟨hrest.2.1, hrest.2.2.1⟩, hrest.2.2.2⟩)]
    have h2 : ((i.natAbs : Int)) = i := by omega
    rw [h2]

theorem char_le_iff (a b : Char) : a ≤ b ↔ a.toNat ≤ b.toNat := Iff.rfl

theorem hexVal_hexDigitChar (x : Nat) (h : x < 16) : hexVal (hexDigitChar x) = some x := by
  rw [hexDigitChar]
  by_cases h10 : x < 10
  · rw [if_pos h10]
    have ht : (Char.ofNat (48 + x)).toNat = 48 + x := char_toNat_ofNat _ (Or.inl (by omega))
    rw [hexVal, if_pos (by rw [isDigit_iff_toNat, ht]; omega), ht]
    rw [Nat.add_sub_cancel_left]
  · rw [if_neg h10]
    have ht : (Char.ofNat (87 + x)).toNat = 87 + x := char_toNat_ofNat _ (Or.inl (by omega))
    rw [hexVal]
    rw [if_neg (by rw [isDigit_iff_toNat, ht]; omega)]
    rw [if_pos (by
      simp only [Bool.and_eq_true, decide_eq_true_eq]
      constructor
      · rw [char_le_iff, ht, show ('a').toNat = 97 from rfl]; omega
      · rw [char_le_iff, ht, show ('f').toNat = 102 from rfl]; omega)]
    rw [ht, show (87 + x - 87) = x from by omega]

theorem parseStringBody_cons (acc : List Char) (c : Char) (tail : List Char)
    (h1 : c ≠ '"') (h2 : c ≠ '\\') :
    parseStringBody acc (c :: tail) =
      if c.toNat < 0x20 then none
      else parseStringBody (acc ++ [c]) tail := by
  rw [parseStringBody.eq_def]
  dsimp only
  rw [if_neg h1, if_neg h2]

theorem parseStringBody_quote (acc tail : List Char) :
    parseStringBody acc ('"' :: tail) = some (acc, tail) := by
  rw [parseStringBody.eq_def]
  dsimp only
  rw [if_pos rfl]

theorem parseStringBody_esc (acc : List Char) (e : Char) (tail : List Char) :
    parseStringBody acc ('\\' :: e :: tail) =
      if e = '"' then parseStringBody (acc ++ ['"']) tail
      else if e = '\\' then parseStringBody (acc ++ ['\\']) tail
      else if e = '/' then parseStringBody (acc ++ ['/']) tail
      else if e = 'b' then parseStringBody (acc ++ ['\x08']) tail
      else if e = 'f' then parseStringBody (acc ++ ['\x0c']) tail
      else if e = 'n' then parseStringBody (acc ++ ['\n']) tail
      else if e = 'r' then parseStringBody (acc ++ ['\r']) tail
      else if e = 't' then parseStringBody (acc ++ ['\t']) tail
      else if e = 'u' then
        (match tail with
         | h1 :: h2 :: h3 :: h4 :: rest3 =>
           (match hexVal h1, hexVal h2, hexVal h3, hexVal h4 with
            | some a, some b, some c2, some d =>
              parseStringBody (acc ++ [Char.ofNat (((a * 16 + b) * 16 + c2) * 16 + d)]) rest3
            | _, _, _, _ => none)
         | _ => none)
      else none := by
  rw [parseStringBody.eq_def]
  dsimp only
  rw [if_neg (by decide), if_pos rfl]

theorem parseStringBody_enc (s : List Char) : ∀ acc rest,
    parseStringBody acc (s.flatMap escChar ++ ('"' :: rest)) = some (acc ++ s, rest) := by
  induction s with
  | nil =>
    intro acc rest
    rw [List.flatMap_nil, List.nil_append, parseStringBody_quote, List.append_nil]
  | cons c s2 ih =>
    intro acc rest
    rw [List.flatMap_cons, List.append_assoc]
    by_cases h1 : c = '"'
    · subst h1
      rw [show escChar '"' = ['\\', '"'] from by decide]
      simp only [List.cons_append, List.nil_append]
      rw [parseStringBody_esc, if_pos rfl, ih]
      simp
    · by_cases h2 : c = '\\'
      · subst h2
        rw [show escChar '\\' = ['\\', '\\'] from by decide]
        simp only [List.cons_append, List.nil_append]
        rw [parseStringBody_esc, if_neg (by decide), if_pos rfl, ih]
        simp
      · by_cases h3 : c = '\x08'
        · subst h3
          rw [show escChar '\x08' = ['\\', 'b'] from by decide]
          simp only [List.cons_append, List.nil_append]
          rw [parseStringBody_esc, if_neg (by decide), if_neg (by decide),
              if_neg (by decide), if_pos rfl, ih]
          simp
        · by_cases h4 : c = '\x0c'
          · subst h4
            rw [show escChar '\x0c' = ['\\', 'f'] from by decide]
            simp only [List.cons_append, List.nil_append]
            rw [parseStringBody_esc, if_neg (by decide), if_neg (by decide),
                if_neg (by decide), if_neg (by decide), if_pos rfl, ih]
            simp
          · by_cases h5 : c = '\n'
            · subst h5
              rw [show escChar '\n' = ['\\', 'n'] from by decide]
              simp only [List.cons_append, List.nil_append]
              rw [parseStringBody_esc, if_neg (by decide), if_neg (by decide),
                  if_neg (by decide), if_neg (by decide), if_neg (by decide),
                  if_pos rfl, ih]
              simp
            · by_cases h6 : c = '\r'
              · subst h6
                rw [show escChar '\r' = ['\\', 'r'] from by decide]
                simp only [List.cons_append, List.nil_append]
                rw [parseStringBody_esc, if_neg (by decide), if_neg (by decide),
                    if_neg (by decide), if_neg (by decide), if_neg (by decide),
                    if_neg (by decide), if_pos rfl, ih]
                simp
              · by_cases h7 : c = '\t'
                · subst h7
                  rw [show escChar '\t' = ['\\', 't'] from by decide]
                  simp only [List.cons_append, List.nil_append]
                  rw [parseStringBody_esc, if_neg (by decide), if_neg (by decide),
                      if_neg (by decide), if_neg (by decide), if_neg (by decide),
                      if_neg (by decide), if_neg (by decide), if_pos rfl, ih]
                  simp
                · by_cases h8 : c.toNat < 0x20
                  · rw [escChar, if_neg h1, if_neg h2, if_neg h3, if_neg h4, if_neg h5,
                        if_neg h6, if_neg h7, if_pos h8]
                    have hdiv : c.toNat / 16 < 16 := by omega
                    have hmod : c.toNat % 16 < 16 := by omega
                    simp only [List.cons_append, List.nil_append]
                    rw [parseStringBody_esc]
                    rw [if_neg (by decide), if_neg (by decide), if_neg (by decide),
                        if_neg (by decide), if_neg (by decide), if_neg (by decide),
                        if_neg (by decide), if_neg (by decide), if_pos rfl]
                    dsimp only
                    rw [show hexVal '0' = some 0 from by decide]
                    rw [hexVal_hexDigitChar _ hdiv, hexVal_hexDigitChar _ hmod]
                    dsimp only
                    rw [show ((0 * 16 + 0) * 16 + c.toNat / 16) * 16 + c.toNat % 16
                          = c.toNat from by omega]
                    rw [char_ofNat_toNat, ih]
                    simp
                  · rw [escChar, if_neg h1, if_neg h2, if_neg h3, if_neg h4, if_neg h5,
                        if_neg h6, if_neg h7, if_neg h8]
                    simp only [List.cons_append, List.nil_append]
                    rw [parseStringBody_cons acc c _ h1 h2, if_neg h8, ih]
                    simp

/-! ### Whitespace and context lemmas for the JSON round trip -/

theorem skipWs_cons_of_ws (c : Char) (s : List Char)
    (h : (c = ' ' || c = '\t' || c = '\n' || c = '\r') = true) :
    skipWs (c :: s) = skipWs s := by
  simp only [skipWs, List.dropWhile_cons]
  rw [if_pos h]

theorem skipWs_cons_of_not_ws (c : Char) (s : List Char)
    (h : (c = ' ' || c = '\t' || c = '\n' || c = '\r') = false) :
    skipWs (c :: s) = c :: s := by
  simp only [skipWs, List.dropWhile_cons]
  rw [if_neg (by simp [h])]

theorem skipWs_replicate (n : Nat) (z : List Char) :
    skipWs (List.replicate n ' ' ++ z) = skipWs z := by
  induction n with
  | zero => rw [List.replicate_zero, List.nil_append]
  | succ n ih =>
    rw [List.replicate_succ, List.cons_append, skipWs_cons_of_ws _ _ (by decide), ih]

theorem skipWs_nlIndent (lv : Nat) (z : List Char) :
    skipWs (nlIndent lv ++ z) = skipWs z := by
  rw [nlIndent, List.cons_append, skipWs_cons_of_ws _ _ (by decide), skipWs_replicate]

theorem encodeJson_head (lv : Nat) (v : Json) :
    ∃ c t, encodeJson lv v = c :: t ∧
      (c = ' ' || c = '\t' || c = '\n' || c = '\r') = false ∧
      c ≠ ']' ∧ c ≠ '}' := by
  cases v with
  | null => exact ⟨'n', "ull".toList, by rw [encodeJson]; decide, by decide, by decide, by decide⟩
  | bool b =>
    cases b with
    | true => exact ⟨'t', "rue".toList, by rw [encodeJson]; decide, by decide, by decide, by decide⟩
    | false => exact ⟨'f', "alse".toList, by rw [encodeJson]; decide, by decide, by decide, by decide⟩
  | int n =>
    rw [encodeJson, Py.intStr]
    obtain ⟨d, ds, hnd, hdig⟩ := natDigits_head_digit n.natAbs
    have hd48 := (isDigit_iff_toNat d).mp hdig
    by_cases hi : (n : Int) < 0
    · exact ⟨'-', Py.natDigits n.natAbs, by rw [if_pos hi], by decide, by decide, by decide⟩
    · refine ⟨d, ds, by rw [if_neg hi, hnd], ?_, ?_, ?_⟩
      · simp only [Bool.or_eq_false_iff, decide_eq_false_iff_not]
        refine ⟨⟨⟨?_, ?_⟩, ?_⟩, ?_⟩ <;> apply char_ne_of_toNat_ne
        · rw [show (' ').toNat = 32 from rfl]; omega
        · rw [show ('\t').toNat = 9 from rfl]; omega
        · rw [show ('\n').toNat = 10 from rfl]; omega
        · rw [show ('\r').toNat = 13 from rfl]; omega
      · exact char_ne_of_toNat_ne (by rw [show (']').toNat = 93 from rfl]; omega)
      · exact char_ne_of_toNat_ne (by rw [show ('}').toNat = 125 from rfl]; omega)
  | str s =>
    exact ⟨'"', s.flatMap escChar ++ ['"'], by rw [encodeJson, encStr], by decide,
      by decide, by decide⟩
  | arr xs =>
    cases xs with
    | nil => exact ⟨'[', "]".toList, by rw [encodeJson]; decide, by decide, by decide, by decide⟩
    | cons x t =>
      exact ⟨'[', nlIndent (lv + 1) ++ encodeJson (lv + 1) x
        ++ encodeMoreItems (lv + 1) t ++ nlIndent lv ++ [']'],
        by rw [encodeJson], by decide, by decide, by decide⟩
  | obj kvs =>
    cases kvs with
    | nil => exact ⟨'{', ['}'], by rw [encodeJson]; decide, by decide, by decide, by decide⟩
    | cons k v t =>
      exact ⟨'{', nlIndent (lv + 1) ++ encStr k ++ ':' :: ' ' :: encodeJson (lv + 1) v
        ++ encodeMorePairs (lv + 1) t ++ nlIndent lv ++ ['}'],
        by rw [encodeJson], by decide, by decide, by decide⟩

theorem goodFollow_items (lv lv0 : Nat) (xs : JsonList) (rest : List Char) :
    goodFollow (encodeMoreItems lv xs ++ (nlIndent lv0 ++ (']' :: rest))) = true := by
  cases xs with
  | nil => rw [encodeMoreItems, List.nil_append, nlIndent, List.cons_append]; rfl
  | cons x t => rw [encodeMoreItems, List.cons_append]; rfl

theorem goodFollow_pairs (lv lv0 : Nat) (kvs : JsonPairs) (rest : List Char) :
    goodFollow (encodeMorePairs lv kvs ++ (nlIndent lv0 ++ ('}' :: rest))) = true := by
  cases kvs with
  | nil => rw [encodeMorePairs, List.nil_append, nlIndent, List.cons_append]; rfl
  | cons k v t => rw [encodeMorePairs, List.cons_append]; rfl

theorem intStr_head (i : Int) :
    ∃ c t, Py.intStr i = c :: t ∧ (c = '-' ∨ c.isDigit = true) := by
  obtain ⟨d, ds, hnd, hdig⟩ := natDigits_head_digit i.natAbs
  rw [Py.intStr]
  by_cases hi : i < 0
  · exact ⟨'-', Py.natDigits i.natAbs, by rw [if_pos hi], Or.inl rfl⟩
  · exact ⟨d, ds, by rw [if_neg hi, hnd], Or.inr hdig⟩

mutual
theorem jsize_le_len : ∀ (lv : Nat) (v : Json), jsize v ≤ (encodeJson lv v).length
  | _, .null => by rw [encodeJson, jsize]; decide
  | _, .bool true => by rw [encodeJson, jsize]; decide
  | _, .bool false => by rw [encodeJson, jsize]; decide
  | _, .int n => by
    rw [encodeJson, jsize]
    obtain ⟨c, t, hct, _⟩ := intStr_head n
    rw [hct, List.length_cons]
    omega
  | _, .str s => by
    rw [encodeJson, jsize, encStr, List.length_cons]
    omega
  | _, .arr .nil => by rw [encodeJson, jsize, lsize]; decide
  | lv, .arr (.cons x xs) => by
    rw [encodeJson, jsize, lsize]
    have h1 := jsize_le_len (lv + 1) x
    have h2 := lsize_le_len (lv + 1) xs
    simp only [List.length_cons, List.length_append, nlIndent, List.length_replicate,
      List.length_singleton]
    omega
  | _, .obj .nil => by rw [encodeJson, jsize, psize]; decide
  | lv, .obj (.cons k v kvs) => by
    rw [encodeJson, jsize, psize]
    have h1 := jsize_le_len (lv + 1) v
    have h2 := psize_le_len (lv + 1) kvs
    simp only [List.length_cons, List.length_append, nlIndent, List.length_replicate,
      List.length_singleton]
    omega

theorem lsize_le_len : ∀ (lv : Nat) (xs : JsonList), lsize xs ≤ (encodeMoreItems lv xs).length
  | _, .nil => by rw [encodeMoreItems, lsize]; decide
  | lv, .cons x xs => by
    rw [encodeMoreItems, lsize]
    have h1 := jsize_le_len lv x
    have h2 := lsize_le_len lv xs
    simp only [List.length_cons, List.length_append, nlIndent, List.length_replicate]
    omega

theorem psize_le_len : ∀ (lv : Nat) (kvs : JsonPairs), psize kvs ≤ (encodeMorePairs lv kvs).length
  | _, .nil => by rw [encodeMorePairs, psize]; decide
  | lv, .cons k v kvs => by
    rw [encodeMorePairs, psize]
    have h1 := jsize_le_len lv v
    have h2 := psize_le_len lv kvs
    simp only [List.length_cons, List.length_append, nlIndent, List.length_replicate]
    omega
end

theorem parseValue_succ (fuel : Nat) (s : List Char) :
    parseValue (fuel + 1) s =
      match s with
      | [] => none
      | c :: rest =>
        if c = 'n' then
          match rest with
          | 'u' :: 'l' :: 'l' :: r => some (.null, r)
          | _ => none
        else if c = 't' then
          match rest with
          | 'r' :: 'u' :: 'e' :: r => some (.bool true, r)
          | _ => none
        else if c = 'f' then
          match rest with
          | 'a' :: 'l' :: 's' :: 'e' :: r => some (.bool false, r)
          | _ => none
        else if c = '"' then
          match parseStringBody [] rest with
          | some (t, r) => some (.str t, r)
          | none => none
        else if c = '[' then
          let s1 := skipWs rest
          if s1.headD '?' = ']' then some (.arr .nil, s1.drop 1)
          else
            match parseArrayItems fuel s1 with
            | some (xs, r) => some (.arr xs, r)
            | none => none
        else if c = '{' then
          let s1 := skipWs rest
          if s1.headD '?' = '}' then some (.obj .nil, s1.drop 1)
          else
            match parseObjectPairs fuel s1 with
            | some (kvs, r) => some (.obj kvs, r)
            | none => none
        else parseNumber s := rfl

theorem parseArrayItems_succ (fuel : Nat) (s : List Char) :
    parseArrayItems (fuel + 1) s =
      match parseValue fuel s with
      | none => none
      | some (v, r) =>
        match skipWs r with
        | ',' :: r2 =>
          match parseArrayItems fuel (skipWs r2) with
          | none => none
          | some (tl, r3) => some (.cons v tl, r3)
        | ']' :: r2 => some (.cons v .nil, r2)
        | _ => none := rfl

theorem parseObjectPairs_succ (fuel : Nat) (s : List Char) :
    parseObjectPairs (fuel + 1) s =
      match s with
      | '"' :: rest =>
        match parseStringBody [] rest with
        | none => none
        | some (k, r) =>
          match skipWs r with
          | ':' :: r2 =>
            match parseValue fuel (skipWs r2) with
            | none => none
            | some (v, r3) =>
              match skipWs r3 with
              | ',' :: r4 =>
                match parseObjectPairs fuel (skipWs r4) with
                | none => none
                | some (tl, r5) => some (.cons k v tl, r5)
              | '}' :: r4 => some (.cons k v .nil, r4)
              | _ => none
          | _ => none
      | _ => none := rfl

theorem parseObjectPairs_quote (fuel : Nat) (s : List Char) :
    parseObjectPairs (fuel + 1) ('"' :: s) =
      match parseStringBody [] s with
      | none => none
      | some (k, r) =>
        match skipWs r with
        | ':' :: r2 =>
          match parseValue fuel (skipWs r2) with
          | none => none
          | some (v, r3) =>
            match skipWs r3 with
            | ',' :: r4 =>
              match parseObjectPairs fuel (skipWs r4) with
              | none => none
              | some (tl, r5) => some (.cons k v tl, r5)
            | '}' :: r4 => some (.cons k v .nil, r4)
            | _ => none
        | _ => none := rfl

theorem parseValue_number (fuel : Nat) (i : Int) (rest : List Char)
    (hg : goodFollow rest = true) :
    parseValue (fuel + 1) (Py.intStr i ++ rest) = some (.int i, rest) := by
  obtain ⟨c, t, hct, hc⟩ := intStr_head i
  have hne : c ≠ 'n' ∧ c ≠ 't' ∧ c ≠ 'f' ∧ c ≠ '"' ∧ c ≠ '[' ∧ c ≠ '{' := by
    rcases hc with hc | hc
    · subst hc
      exact ⟨by decide, by decide, by decide, by decide, by decide, by decide⟩
    · have h48 := (isDigit_iff_toNat c).mp hc
      refine ⟨?_, ?_, ?_, ?_, ?_, ?_⟩ <;> apply char_ne_of_toNat_ne
      · rw [show ('n').toNat = 110 from rfl]; omega
      · rw [show ('t').toNat = 116 from rfl]; omega
      · rw [show ('f').toNat = 102 from rfl]; omega
      · rw [show ('"').toNat = 34 from rfl]; omega
      · rw [show ('[').toNat = 91 from rfl]; omega
      · rw [show ('{').toNat = 123 from rfl]; omega
  rw [hct, List.cons_append, parseValue_succ]
  dsimp only
  rw [if_neg hne.1, if_neg hne.2.1, if_neg hne.2.2.1, if_neg hne.2.2.2.1,
      if_neg hne.2.2.2.2.1, if_neg hne.2.2.2.2.2]
  rw [← List.cons_append, ← hct]
  exact parseNumber_intStr i rest hg

theorem parse_encode : ∀ fuel : Nat,
    (∀ lv v rest, jsize v < fuel → goodFollow rest = true →
      parseValue fuel (encodeJson lv v ++ rest) = some (v, rest)) ∧
    (∀ lv lv0 x xs rest, jsize x + lsize xs + 1 < fuel → goodFollow rest = true →
      parseArrayItems fuel
        (encodeJson lv x ++ (encodeMoreItems lv xs ++ (nlIndent lv0 ++ (']' :: rest))))
        = some (.cons x xs, rest)) ∧
    (∀ lv lv0 k v kvs rest, jsize v + psize kvs + 1 < fuel → goodFollow rest = true →
      parseObjectPairs fuel
        ('"' :: (k.flatMap escChar ++ ('"' :: (':' :: (' ' :: (encodeJson lv v
          ++ (encodeMorePairs lv kvs ++ (nlIndent lv0 ++ ('}' :: rest)))))))))
        = some (.cons k v kvs, rest)) := by
  intro fuel
  induction fuel with
  | zero =>
    exact ⟨fun lv v rest h _ => absurd h (by omega),
           fun lv lv0 x xs rest h _ => absurd h (by omega),
           fun lv lv0 k v kvs rest h _ => absurd h (by omega)⟩
  | succ fuel ih =>
    obtain ⟨ihP1, ihP2, ihP3⟩ := ih
    refine ⟨?_, ?_, ?_⟩
    · intro lv v rest hsz hg
      cases v with
      | null => rfl
      | bool b => cases b <;> rfl
      | int n =>
        rw [encodeJson]
        exact parseValue_number fuel n rest hg
      | str s =>
        rw [encodeJson, encStr, List.cons_append, parseValue_succ]
        simp only []
        rw [if_pos trivial]
        rw [List.append_assoc, List.singleton_append, parseStringBody_enc]
        simp only [List.nil_append]
        rw [if_neg (by decide : ¬('"' = 'n')), if_neg (by decide : ¬('"' = 't')),
            if_neg (by decide : ¬('"' = 'f'))]
      | arr xs =>
        cases xs with
        | nil => rfl
        | cons x xs =>
          rw [encodeJson, List.cons_append, parseValue_succ]
          simp only []
          rw [if_neg (by decide : ¬('[' = 'n')), if_neg (by decide : ¬('[' = 't')),
              if_neg (by decide : ¬('[' = 'f')), if_neg (by decide : ¬('[' = '"')),
              if_pos trivial]
          simp only [List.append_assoc, List.cons_append, List.singleton_append,
            List.nil_append]
          rw [skipWs_nlIndent]
          obtain ⟨c, t, hct, hws, hb1, hb2⟩ := encodeJson_head (lv + 1) x
          rw [hct, List.cons_append, skipWs_cons_of_not_ws _ _ hws]
          simp only [List.headD_cons]
          rw [if_neg hb1]
          rw [← List.cons_append, ← hct]
          rw [jsize, lsize] at hsz
          rw [ihP2 (lv + 1) lv x xs rest (by omega) hg]
      | obj kvs =>
        cases kvs with
        | nil => rfl
        | cons k v t2 =>
          rw [encodeJson, List.cons_append, parseValue_succ]
          simp only []
          rw [if_neg (by decide : ¬('{' = 'n')), if_neg (by decide : ¬('{' = 't')),
              if_neg (by decide : ¬('{' = 'f')), if_neg (by decide : ¬('{' = '"')),
              if_neg (by decide : ¬('{' = '[')), if_pos trivial]
          simp only [List.append_assoc, List.cons_append, List.singleton_append,
            List.nil_append]
          rw [skipWs_nlIndent, encStr, List.cons_append,
              skipWs_cons_of_not_ws _ _ (by decide)]
          simp only [List.headD_cons]
          rw [if_neg (by decide : ¬('"' = '}'))]
          simp only [List.append_assoc, List.singleton_append]
          rw [jsize, psize] at hsz
          rw [ihP3 (lv + 1) lv k v t2 rest (by omega) hg]
    · intro lv lv0 x xs rest hsz hg
      rw [parseArrayItems_succ]
      rw [ihP1 lv x _ (by omega) (goodFollow_items lv lv0 xs rest)]
      simp only []
      cases xs with
      | nil =>
        rw [encodeMoreItems, List.nil_append, skipWs_nlIndent,
            skipWs_cons_of_not_ws _ _ (by decide)]
        rfl
      | cons x2 t2 =>
        rw [encodeMoreItems, List.cons_append, skipWs_cons_of_not_ws _ _ (by decide)]
        simp only []
        simp only [List.append_assoc, List.cons_append]
        rw [skipWs_nlIndent]
        obtain ⟨c, t, hct, hws, hb1, hb2⟩ := encodeJson_head lv x2
        rw [hct, List.cons_append, skipWs_cons_of_not_ws _ _ hws,
            ← List.cons_append, ← hct]
        rw [lsize] at hsz
        have hp := jsize_pos x
        rw [ihP2 lv lv0 x2 t2 rest (by omega) hg]
    · intro lv lv0 k v kvs rest hsz hg
      rw [parseObjectPairs_quote]
      rw [parseStringBody_enc]
      simp only [List.nil_append]
      rw [skipWs_cons_of_not_ws _ _ (by decide)]
      simp only []
      rw [skipWs_cons_of_ws _ _ (by decide)]
      obtain ⟨c, t, hct, hws, hb1, hb2⟩ := encodeJson_head lv v
      rw [hct, List.cons_append, skipWs_cons_of_not_ws _ _ hws,
          ← List.cons_append, ← hct]
      rw [ihP1 lv v _ (by omega) (goodFollow_pairs lv lv0 kvs rest)]
      simp only []
      cases kvs with
      | nil =>
        rw [encodeMorePairs, List.nil_append, skipWs_nlIndent,
            skipWs_cons_of_not_ws _ _ (by decide)]
        rfl
      | cons k2 v2 t2 =>
        rw [encodeMorePairs, List.cons_append, skipWs_cons_of_not_ws _ _ (by decide)]
        simp only []
        simp only [List.append_assoc, List.cons_append]
        rw [skipWs_nlIndent, encStr, List.cons_append,
            skipWs_cons_of_not_ws _ _ (by decide)]
        simp only [List.append_assoc, List.singleton_append]
        rw [psize] at hsz
        have hp := jsize_pos v
        rw [ihP3 lv lv0 k2 v2 t2 rest (by omega) hg]

/-- C6: for every canonical document (object keys strictly sorted
throughout, as `write_json`'s own `sort_keys=True` output always is),
serializing with `write_json` and reading back with `read_json` yields an
equal document — no data loss, stable key order, non-ASCII text preserved,
escapes decoded to exactly the original text. -/
theorem C6_write_read_roundtrip (d : Json) (h : canonicalJson d = true) :
    read_json (write_json d) = some d := by
  rw [write_json, sortJson_id d h, read_json]
  obtain ⟨c, t, hct, hws, hb1, hb2⟩ := encodeJson_head 0 d
  have hlen : jsize d < (encodeJson 0 d ++ ['\n']).length + 1 := by
    have := jsize_le_len 0 d
    rw [List.length_append]
    omega
  rw [hct, List.cons_append, skipWs_cons_of_not_ws _ _ hws, ← List.cons_append, ← hct]
  have hP1 := (parse_encode ((encodeJson 0 d ++ ['\n']).length + 1)).1
  rw [hP1 0 d ['\n'] hlen (by decide)]
  rfl

theorem C6_write_read_roundtrip_witness :
    canonicalJson demoDocC6 = true ∧ read_json (write_json demoDocC6) = some demoDocC6 :=
  ⟨by decide, C6_write_read_roundtrip demoDocC6 (by decide)⟩
